import Mathlib

/-!
Shallow embedding of the WFC core of the WFCWML repository
(src/project/wfc/*.py), used to settle the frozen claims about its
natural-language specification.

Conventions of the embedding:
* Python `int` is `Int`; `numpy` integer matrices are `List (List Int)`
  in row-major order; the `height × width` object array `Grid.grid` is
  `List (List (Option MetaPattern))`.
* Python `set`s of `MetaPattern` are duplicate-free lists; `set(xs)` is
  `xs.dedup`; set intersection with a predicate is `List.filter`.
* Following the arena advice of the spec (§9), `MetaPattern.rules` is not
  stored inside the (possibly cyclic) pattern value: the per-direction
  rule sets live in a lookup `rules : Int → Direction → List MetaPattern`
  keyed by pattern uid, carried by `Grid` and `Repository`.
* `np.linalg.norm` distances are compared through their squares, which is
  equivalent since `Real.sqrt` is strictly monotone on squared integers.
-/

/-- The four cardinal directions, `src/project/wfc/direction.py`.
Declaration order (UP, DOWN, LEFT, RIGHT) matches the Python `Enum`
iteration order used by `Grid.get_neighbors`. -/
inductive Direction where
  | UP
  | DOWN
  | LEFT
  | RIGHT
deriving DecidableEq, Repr, Fintype

/-- The list `for direction in Direction` iterates over. -/
def directionList : List Direction := [.UP, .DOWN, .LEFT, .RIGHT]

/-- Row delta of a direction (`Direction.dx`): UP=(+1,0), DOWN=(−1,0). -/
def Direction.dx : Direction → Int
  | .UP => 1
  | .DOWN => -1
  | .LEFT => 0
  | .RIGHT => 0

/-- Column delta of a direction (`Direction.dy`): LEFT=(0,+1), RIGHT=(0,−1). -/
def Direction.dy : Direction → Int
  | .UP => 0
  | .DOWN => 0
  | .LEFT => 1
  | .RIGHT => -1

/-- `Direction.opposite` of `direction.py`. -/
def Direction.opposite : Direction → Direction
  | .UP => .DOWN
  | .DOWN => .UP
  | .LEFT => .RIGHT
  | .RIGHT => .LEFT

/-- Modelled from the spec: `reverse_directions`, imported by
`repository.py` from `direction.py` but absent from src; per §3 the
validator checks symmetry under `opposite(d)`, so it is the opposite map. -/
def reverseDirections (d : Direction) : Direction := d.opposite

/-- `Point` of `grid.py`: `x` is the row, `y` the column. -/
structure Point where
  x : Int
  y : Int
deriving DecidableEq, Repr

/-- Modelled from the spec: `HIDDEN_CELL` from `project/config.py` (absent
from src); §3 and §6 fix the empty/hidden cell sentinel to `-1`. -/
def HIDDEN_CELL : Int := -1

/-- `MetaPattern` of `pattern.py` (uid, name, is_walkable, weight).
`tags` and the image-variant `patterns` list play no role in any claim and
are omitted; `rules` is externalized to the uid-keyed lookup (§9 arena). -/
structure MetaPattern where
  uid : Int
  name : String
  isWalkable : Int
  weight : Int
deriving DecidableEq, Repr

/-- `Grid` of `grid.py`: dimensions, palette, uid-keyed rule lookup
(`NeighborRuleSet.get_allowed_neighbors` for the pattern with that uid),
the `height × width` pattern array and the parallel entropy array. -/
structure Grid where
  width : Nat
  height : Nat
  patterns : List MetaPattern
  rules : Int → Direction → List MetaPattern
  grid : List (List (Option MetaPattern))
  entropy : List (List Int)

/-- `Grid.center`: `(self.width // 2, self.height // 2)`. -/
def Grid.center (g : Grid) : Int × Int := ((g.width : Int) / 2, (g.height : Int) / 2)

/-- `Grid.in_grid_bounds`. -/
def Grid.inGridBounds (g : Grid) (p : Point) : Bool :=
  decide (0 ≤ p.x) && decide (p.x < (g.height : Int)) &&
  decide (0 ≤ p.y) && decide (p.y < (g.width : Int))

/-- Cell read `self.grid[p.x, p.y]` (out of bounds reads give `none`;
the source only indexes in bounds). -/
def Grid.cellAt (g : Grid) (p : Point) : Option MetaPattern :=
  ((g.grid.getD p.x.toNat []).getD p.y.toNat none)

/-- Entropy read `self.entropy[p.x, p.y]`. -/
def Grid.entropyAt (g : Grid) (p : Point) : Int :=
  ((g.entropy.getD p.x.toNat []).getD p.y.toNat 0)

/-- Write one entry of a row-major matrix (no-op out of bounds, matching
the guarded in-bounds writes of the source). -/
def setMat {α : Type} (m : List (List α)) (p : Point) (v : α) : List (List α) :=
  m.set p.x.toNat ((m.getD p.x.toNat []).set p.y.toNat v)

/-- `Grid.is_empty_point`. -/
def Grid.isEmptyPoint (g : Grid) (p : Point) : Bool := (g.cellAt p).isNone

/-- `Grid.initialize`: all cells empty, all entropies `len(self.patterns)`. -/
def Grid.initGrid (g : Grid) : Grid :=
  { g with
    grid := List.replicate g.height (List.replicate g.width none)
    entropy := List.replicate g.height (List.replicate g.width (g.patterns.length : Int)) }

/-- `Grid.is_collapsed`: no cell is `None`. -/
def Grid.isCollapsed (g : Grid) : Bool :=
  g.grid.all (fun row => row.all (fun c => c.isSome))

/-- All in-bounds points in row-major order (the traversal order of
`np.argwhere` and of `iter_cells`). -/
def Grid.allCells (g : Grid) : List Point :=
  (List.range g.height).flatMap (fun i =>
    (List.range g.width).map (fun j => ⟨Int.ofNat i, Int.ofNat j⟩))

/-- `Grid.zero_entropy_cell`: first (row-major) empty cell of entropy 0. -/
def Grid.zeroEntropyCell (g : Grid) : Option Point :=
  (g.allCells.filter (fun p => decide (g.entropyAt p = 0) && g.isEmptyPoint p)).head?

/-- `Grid.get_neighbors(p, add_direction=True)`: the in-bounds neighbors in
direction-enum order, paired with the direction from `p` to the neighbor. -/
def Grid.neighborsD (g : Grid) (p : Point) : List (Point × Direction) :=
  directionList.filterMap (fun d =>
    let n : Point := ⟨p.x + d.dx, p.y + d.dy⟩
    if g.inGridBounds n then some (n, d) else none)

/-- `Grid.get_neighbors(p)` without directions. -/
def Grid.getNeighbors (g : Grid) (p : Point) : List Point :=
  (g.neighborsD p).map Prod.fst

/-- `Grid.get_any_collapsed_neighbor`: first non-empty neighbor, if any. -/
def Grid.getAnyCollapsedNeighbor (g : Grid) (p : Point) : Option Point :=
  (g.getNeighbors p).find? (fun n => !g.isEmptyPoint n)

/-- The neighbor loop of `get_valid_patterns`, folding the per-neighbor
intersections into the accumulated possible set.  `recurse` supplies the
recursive valid-pattern sets of empty neighbors; `skipEmpty` is the
`depth >= max_depth` guard under which empty neighbors contribute no
constraint. -/
def gvpAux (g : Grid) (recurse : Point → List MetaPattern) (skipEmpty : Bool) :
    List (Point × Direction) → List MetaPattern → List MetaPattern
  | [], acc => acc
  | (n, d) :: rest, acc =>
    match g.cellAt n with
    | none =>
      if skipEmpty then gvpAux g recurse skipEmpty rest acc
      else
        let nposs := recurse n
        let allowed := nposs.flatMap (fun q => g.rules q.uid d)
        gvpAux g recurse skipEmpty rest (acc.filter (fun t => decide (t ∈ allowed)))
    | some q =>
      gvpAux g recurse skipEmpty rest (acc.filter (fun t => decide (t ∈ g.rules q.uid d)))

/-- `get_valid_patterns` as structural recursion on the remaining depth
budget `max_depth - depth` (the only quantity the original `depth`-indexed
recursion depends on): at budget 0 the `depth >= max_depth` guard skips
empty neighbors, otherwise an empty neighbor recurses at budget one less
(the original `depth + 1`). -/
def gvpGo (g : Grid) : Nat → Point → List MetaPattern
  | 0, p => gvpAux g (fun _ => []) true (g.neighborsD p) g.patterns.dedup
  | fuel + 1, p => gvpAux g (gvpGo g fuel) false (g.neighborsD p) g.patterns.dedup

/-- `Grid.get_valid_patterns(p, depth, max_depth)`: starts from
`set(self.patterns)` and intersects, per in-bounds neighbor, the rule set
contributed by that neighbor (collapsed: its rules in the direction from
`p`; empty below `max_depth`: the union of the rules of its own recursively
valid patterns; empty at `max_depth`: no constraint). -/
def Grid.getValidPatterns (g : Grid) (p : Point) (depth maxDepth : Nat) : List MetaPattern :=
  gvpGo g (maxDepth - depth) p

/-- `Grid.place_pattern`: write the pattern and zero the entropy at `p`. -/
def Grid.placePattern (g : Grid) (p : Point) (pat : MetaPattern) : Grid :=
  { g with grid := setMat g.grid p (some pat), entropy := setMat g.entropy p 0 }

/-- State of the `update_entropy` BFS loop: the work queue (a `deque`
popped at the front and appended at the back), the visited set, and the
entropy array being rewritten.  The pattern array never changes during the
loop, so it stays in the ambient `Grid`. -/
structure UEState where
  queue : List Point
  visited : List Point
  entropy : List (List Int)
deriving Repr

/-- Entropy read against a BFS state's array. -/
def ueEntropyAt (e : List (List Int)) (p : Point) : Int :=
  ((e.getD p.x.toNat []).getD p.y.toNat 0)

/-- The enqueue loop at the bottom of `update_entropy`: each unvisited
neighbor is appended to the queue and marked visited. -/
def ueEnqueue (s : UEState) (ns : List Point) : UEState :=
  ns.foldl (fun st n =>
    if n ∈ st.visited then st
    else { st with queue := st.queue ++ [n], visited := n :: st.visited }) s

/-- One iteration of the `while queue:` body of `Grid.update_entropy`:
pop; skip collapsed cells; recompute `len(get_valid_patterns(cell))`; skip
at fixpoint; otherwise write the new entropy and enqueue unvisited
neighbors.  An empty queue is returned unchanged (the loop has exited). -/
def ueBody (g : Grid) (s : UEState) : UEState :=
  match s.queue with
  | [] => s
  | c :: rest =>
    if (g.cellAt c).isSome then { s with queue := rest }
    else
      let oldE := ueEntropyAt s.entropy c
      let newE : Int := ((g.getValidPatterns c 0 1).length : Int)
      if oldE = newE then { s with queue := rest }
      else
        ueEnqueue { s with queue := rest, entropy := setMat s.entropy c newE }
          (g.getNeighbors c)

/-- Termination measure of the BFS: queue length plus twice the number of
in-bounds cells not yet visited. -/
def ueMeasure (g : Grid) (s : UEState) : Nat :=
  s.queue.length + 2 * (g.allCells.filter (fun p => decide (p ∉ s.visited))).length

/-- Initial BFS state of `update_entropy(p)`: the queue is seeded with the
neighbors of `p` and `p` alone is visited. -/
def ueInit (g : Grid) (p : Point) : UEState :=
  ⟨g.getNeighbors p, [p], g.entropy⟩

/-- `Grid.update_entropy(p)`: run the BFS to completion.  The fuel
`ueMeasure` strictly dominates the iteration count (`ueMeasure_decreases`
below), so the loop always drains its queue before the fuel runs out. -/
def Grid.updateEntropy (g : Grid) (p : Point) : Grid :=
  { g with entropy := (ueBody g)^[ueMeasure g (ueInit g p)] (ueInit g p) |>.entropy }

/-- `Grid.reset_point`: empty the cell, restore its entropy to
`len(self.patterns)`, then re-propagate from the point and from its first
collapsed neighbor, if any.  The `penalty` parameter is the one passed by
`WFC.rollback` (`judge.rollback_penalty`); modelled from the spec §4.5/§9:
the rollback-penalty tabu is only partially implemented in the source and
the `reset_point` body in src ignores it (a penalty of 0 disables the
tabu). -/
def Grid.resetPoint (g : Grid) (p : Point) (penalty : Nat) : Grid :=
  let g1 : Grid :=
    { g with grid := setMat g.grid p none,
             entropy := setMat g.entropy p (g.patterns.length : Int) }
  let collapsedNeighbor := g1.getAnyCollapsedNeighbor p
  let g2 := g1.updateEntropy p
  match collapsedNeighbor with
  | some n => g2.updateEntropy n
  | none => g2

/-- Squared Euclidean distance between a cell `(x, y)` and an integer pair
`(a, b)`; `np.linalg.norm` comparisons are equivalent to comparisons of
these squares. -/
def sqDist (p : Point) (c : Int × Int) : Int :=
  (p.x - c.1) * (p.x - c.1) + (p.y - c.2) * (p.y - c.2)

/-- First minimizer of `f` over a non-empty list (`np.argmin`: ties keep
the earliest index). -/
def firstArgmin {α : Type} (f : α → Int) : List α → Option α
  | [] => none
  | x :: xs => some (xs.foldl (fun b y => if f y < f b then y else b) x)

/-- `Grid.find_least_entropy_cell`: among cells of positive entropy, a cell
of minimum entropy; on ties the `np.argmin` of distances between the
`(row, col)` index vectors and `np.array(self.center)`, i.e. the pair
`(width // 2, height // 2)`. -/
def Grid.findLeastEntropyCell (g : Grid) : Option Point :=
  let positives := g.allCells.filter (fun p => decide (0 < g.entropyAt p))
  match (positives.map g.entropyAt).min? with
  | none => none
  | some m =>
    let minCells := g.allCells.filter (fun p => decide (g.entropyAt p = m))
    if minCells.length = 1 then minCells.head?
    else firstArgmin (fun p => sqDist p ⟨(g.width : Int) / 2, (g.height : Int) / 2⟩) minCells

/-- `Repository` of `repository.py`: the registered palette plus the
uid-keyed rule lookup (see the arena convention above). -/
structure Repository where
  patterns : List MetaPattern
  rules : Int → Direction → List MetaPattern

/-- `ValidationResult` of `repository.py`. -/
inductive ValidationResult where
  | SUCCESS
  | FAIL
deriving DecidableEq, Repr

/-- `ValidationError` of `repository.py`. -/
structure ValidationError where
  patternUid : Int
  neighbourUid : Int
  direction : Direction
deriving DecidableEq, Repr

/-- `ValidationMessage` of `repository.py`. -/
structure ValidationMessage where
  result : ValidationResult := .SUCCESS
  errors : List ValidationError := []
deriving DecidableEq, Repr

/-- `Repository.validate_patterns`: for each registered pattern, direction
and allowed neighbour, append an error unless the neighbour's rule set in
the reverse direction contains the pattern; any error flips the result to
FAIL.  Iterating a Python set of patterns visits each distinct member
once, hence the `dedup` on the rule set. -/
def Repository.validatePatterns (r : Repository) : ValidationMessage :=
  r.patterns.foldl (fun msg pattern =>
    directionList.foldl (fun msg direction =>
      ((r.rules pattern.uid direction).dedup).foldl (fun msg neighbour =>
        if pattern ∈ r.rules neighbour.uid (reverseDirections direction) then msg
        else { result := .FAIL,
               errors := msg.errors ++ [⟨pattern.uid, neighbour.uid, direction⟩] }) msg) msg)
    ⟨.SUCCESS, []⟩

/-- `Repository.get_pattern_by_uid`: first registered pattern with the uid. -/
def Repository.getPatternByUid (r : Repository) (uid : Int) : Option MetaPattern :=
  r.patterns.find? (fun p => p.uid = uid)

/-- `Grid.serialize` with the uid property: the written `.dat` file as a
row-major matrix of uids, empty cells as `HIDDEN_CELL`.  (The textual
comma-separated encoding of each integer row is bijective and elided.) -/
def Grid.serialize (g : Grid) : List (List Int) :=
  g.grid.map (fun row => row.map (fun c =>
    match c with
    | some pat => pat.uid
    | none => HIDDEN_CELL))

/-- `Grid.deserialize`: rebuild `self.grid` from the file's uid matrix,
resolving non-sentinel uids through the repository, and set `height` and
`width` from the parsed rows.  The entropy array is not written. -/
def Grid.deserialize (g : Grid) (repository : Repository) (file : List (List Int)) : Grid :=
  let parsed : List (List (Option MetaPattern)) :=
    file.map (fun row => row.map (fun v =>
      if v ≠ HIDDEN_CELL then repository.getPatternByUid v else none))
  { g with grid := parsed,
           height := parsed.length,
           width := (parsed.headD []).length }

/-- `ActionType` of `history.py`. -/
inductive ActionType where
  | PLACE
  | ROLLBACK
deriving DecidableEq, Repr

/-- Step outcomes of `outcomes.py` (`FailOutcome` and `SuccessOutcome`
merged into one type; `None` is `Option.none` at use sites). -/
inductive Outcome where
  | ZERO_CHOICE
  | ZERO_ENTROPY
  | JUDGE_ERROR
  | ROLLBACK_LIMIT_EXCEEDED
  | JUDGE_STOPPED
  | COLLAPSED
deriving DecidableEq, Repr

/-- `StepResult` of `step_result.py`. -/
structure StepResult where
  success : Bool
  chosenPoint : Option Point
  chosenPattern : Option MetaPattern
  outcome : Option Outcome
  failedPoint : Option Point
deriving DecidableEq, Repr

/-- The freshly constructed `StepResult()` with its dataclass defaults. -/
def StepResult.default : StepResult := ⟨false, none, none, none, none⟩

/-- `CellState` of `history.py`. -/
structure CellState where
  entropy : Int
  isWalkable : Option Int
  patternUid : Option Int
deriving DecidableEq, Repr

/-- `GridState` of `history.py`. -/
structure GridState where
  width : Nat
  height : Nat
  cells : List CellState
deriving DecidableEq, Repr

/-- `GridState.from_grid`: row-major flattened cell states. -/
def GridState.fromGrid (g : Grid) : GridState :=
  ⟨g.width, g.height,
    g.allCells.map (fun p =>
      match g.cellAt p with
      | some pat => ⟨g.entropyAt p, some pat.isWalkable, some pat.uid⟩
      | none => ⟨g.entropyAt p, none, none⟩)⟩

/-- `Snapshot` of `history.py`.  `action_point` is stored there as the
plain pair `(chosen_point.x, chosen_point.y)`; the pair is embedded as a
`Point` again. -/
structure Snapshot where
  stepNumber : Nat
  actionType : ActionType
  actionPoint : Point
  gridState : GridState
  possiblePatternUids : List Int
  chosenPatternUid : Option Int
  chosenPatternIsWalkable : Option Int
deriving DecidableEq, Repr

/-- `History` of `history.py`: the full log `_snapshots` and the rollback
stack `_rollback_snapshots` (both appended by `add_step`; only the stack is
popped by rollbacks). -/
structure History where
  snapshots : List Snapshot
  rollbackSnapshots : List Snapshot
deriving DecidableEq, Repr

/-- `History.add_step`: append a post-step snapshot to both sequences,
unless the step has no chosen point, in which case nothing is appended. -/
def History.addStep (h : History) (step : StepResult) (g : Grid)
    (actionType : ActionType) (possiblePatterns : Option (List MetaPattern)) : History :=
  match step.chosenPoint with
  | none => h
  | some cp =>
    let snapshot : Snapshot :=
      { stepNumber := h.snapshots.length
        actionType := actionType
        actionPoint := ⟨cp.x, cp.y⟩
        gridState := GridState.fromGrid g
        possiblePatternUids :=
          match possiblePatterns with
          | some ps => if ps.isEmpty then [] else ps.map MetaPattern.uid
          | none => []
        chosenPatternUid := step.chosenPattern.map MetaPattern.uid
        chosenPatternIsWalkable := step.chosenPattern.map MetaPattern.isWalkable }
    ⟨h.snapshots ++ [snapshot], h.rollbackSnapshots ++ [snapshot]⟩

/-- Modelled from the spec: `History.rollback_steps`, read by `WFC.step`
but absent from `history.py`; per §4.5 the judge is consulted exactly when
the rollback stack is non-empty, so it is the size of the rollback stack. -/
def History.rollbackSteps (h : History) : Nat := h.rollbackSnapshots.length

/-- `History.get_last_rollback_snapshot(pop=True)`: last stack entry and
the history after popping it. -/
def History.getLastRollbackSnapshotPop (h : History) : Option Snapshot × History :=
  match h.rollbackSnapshots.getLast? with
  | none => (none, h)
  | some s => (some s, ⟨h.snapshots, h.rollbackSnapshots.dropLast⟩)

/-- Modelled from the spec (§4.3): the judge's `Decision` tagged variant
`{CONTINUE, ROLLBACK(steps), STOP}`.  The type is imported by `wfc.py` and
`machine_learning/judge.py` from `project/wfc/judge.py`, whose src copy
predates it; the constructors and the `steps` payload are exactly those
its callers use. -/
inductive Decision where
  | CONTINUE
  | ROLLBACK (steps : Int)
  | STOP
deriving DecidableEq, Repr

/-- `CONTINUE_DECISION` of the judge module. -/
def CONTINUE_DECISION : Decision := .CONTINUE

/-- Modelled from the spec (§4.3): the judge interface consumed by
`WFC.step` — a decision function of the grid plus the integer
`rollback_penalty ≥ 0` carried to `grid.reset_point`. -/
structure Judge where
  decide : Grid → Decision
  rollbackPenalty : Nat

/-- The advisor interface (`advisor.py`): `select(objects, grid, point)`,
`none` when the advisor returns nothing. -/
def AdvisorFun : Type := List MetaPattern → Grid → Point → Option MetaPattern

/-- `WFC.__init__` state: grid, rollback counter, optional rollback cap
(`None` = unbounded), history, `_is_initialized`. -/
structure WFCState where
  grid : Grid
  rollbackCount : Int
  maxRollbacks : Option Int
  history : History
  isInit : Bool

/-- Floor square root as a bounded search (kernel-computable). -/
def floorSqrt (n : Nat) : Nat :=
  ((List.range (n + 1)).filter (fun k => k * k ≤ n)).getLast?.getD 0

/-- `WFC._calculate_max_rollbacks`: default `⌊√(width·height)⌋`, `-1`
disables the cap.  (`grid.area` is `width * height`; `int(a ** 0.5)` is
the floor square root on these magnitudes.) -/
def calculateMaxRollbacks (maxRollbacks : Option Int) (g : Grid) : Option Int :=
  match maxRollbacks with
  | none => some ((floorSqrt (g.width * g.height) : Int))
  | some m => if m = -1 then none else some m

/-- `WFC._ensure_initialized` / `WFC._initialize`. -/
def ensureInit (W : WFCState) : WFCState :=
  if W.isInit then W
  else ⟨W.grid.initGrid, 0, W.maxRollbacks, ⟨[], []⟩, true⟩

/-- The `for _ in range(steps)` loop of `WFC.rollback`: pop the last stack
snapshot (stopping when the stack is empty) and reset its action point. -/
def rollbackLoop (pen : Nat) : Nat → Grid → History → Grid × History
  | 0, g, h => (g, h)
  | k + 1, g, h =>
    match h.getLastRollbackSnapshotPop with
    | (none, _) => (g, h)
    | (some snap, h') => rollbackLoop pen k (g.resetPoint snap.actionPoint pen) h'

/-- `WFC.rollback(decision)` for `ROLLBACK(steps)`: `rollback_count +=
steps` up front, then undo up to `steps` stack entries. -/
def WFC.rollback (J : Judge) (g : Grid) (h : History) (cnt : Int) (steps : Int) :
    Grid × History × Int :=
  let gh := rollbackLoop J.rollbackPenalty steps.toNat g h
  (gh.1, gh.2, cnt + steps)

/-- Candidate sorting of `WFC._validate_patterns`:
`sorted(possible_patterns, key=lambda x: x.uid)`. -/
def sortByUid (l : List MetaPattern) : List MetaPattern :=
  l.insertionSort (fun a b => a.uid ≤ b.uid)

/-- The Python truthiness test
`self.max_rollbacks and self.rollback_count >= self.max_rollbacks`:
`None` and `0` are falsy, so the cap only fires for a non-zero cap. -/
def rollbackLimitHit (maxRollbacks : Option Int) (cnt : Int) : Bool :=
  match maxRollbacks with
  | none => false
  | some m => decide (m ≠ 0) && decide (cnt ≥ m)

/-- `WFC.step(early_stopping)`: the eight-branch step of `wfc.py`, with
the `finally` block folded into every return path (`add_step` receives the
result, the current grid, the action type, and the possible patterns of
the path). -/
def WFC.step (J : Judge) (A : AdvisorFun) (earlyStopping : Bool) (W0 : WFCState) :
    StepResult × WFCState :=
  let W := ensureInit W0
  let finish : StepResult → Grid → History → Int → ActionType →
      Option (List MetaPattern) → StepResult × WFCState :=
    fun r g h cnt act pp =>
      (r, ⟨g, cnt, W.maxRollbacks, h.addStep r g act pp, W.isInit⟩)
  if rollbackLimitHit W.maxRollbacks W.rollbackCount then
    finish { StepResult.default with outcome := some .ROLLBACK_LIMIT_EXCEEDED }
      W.grid W.history W.rollbackCount .PLACE none
  else
    let decision := if W.history.rollbackSteps > 0 then J.decide W.grid else CONTINUE_DECISION
    match decision with
    | .STOP =>
      finish { StepResult.default with outcome := some .JUDGE_STOPPED }
        W.grid W.history W.rollbackCount .PLACE none
    | .ROLLBACK n =>
      let ghc := WFC.rollback J W.grid W.history W.rollbackCount n
      finish { StepResult.default with success := true }
        ghc.1 ghc.2.1 ghc.2.2 .ROLLBACK none
    | .CONTINUE =>
      match W.grid.findLeastEntropyCell with
      | none =>
        finish { StepResult.default with
                 outcome := if earlyStopping then some .COLLAPSED else none }
          W.grid W.history W.rollbackCount .PLACE none
      | some point =>
        let possible := W.grid.getValidPatterns point 0 1
        if possible.isEmpty && earlyStopping then
          finish { StepResult.default with
                     chosenPoint := some point
                     outcome := some .ZERO_CHOICE
                     failedPoint := some point }
            W.grid W.history W.rollbackCount .PLACE none
        else
          let cands := sortByUid possible
          match A cands W.grid point with
          | none =>
            finish { StepResult.default with
                       chosenPoint := some point
                       outcome := some .JUDGE_ERROR
                       failedPoint := some point }
              W.grid W.history W.rollbackCount .PLACE (some cands)
          | some pat =>
            let g2 := (W.grid.placePattern point pat).updateEntropy point
            match g2.zeroEntropyCell, earlyStopping with
            | some z, true =>
              finish { StepResult.default with
                         chosenPoint := some point
                         chosenPattern := some pat
                         outcome := some .ZERO_ENTROPY
                         failedPoint := some z }
                g2 W.history W.rollbackCount .PLACE (some cands)
            | _, _ =>
              finish { StepResult.default with
                         success := true
                         chosenPoint := some point
                         chosenPattern := some pat }
                g2 W.history W.rollbackCount .PLACE (some cands)

/-- The state after one default (`early_stopping=True`) step. -/
def WFC.stepState (J : Judge) (A : AdvisorFun) (W : WFCState) : WFCState :=
  (WFC.step J A true W).2

/-! ## Specification-side definitions

Definitions in this section transcribe sentences of the specification (or
of a claim) rather than source code; each is compared against the
corresponding source-derived definition by a theorem or refuted by a
counterexample. -/

/-- The depth-0 valid-pattern set in the words of the spec and of C1: the
intersection, over each collapsed in-bounds neighbor `n` of `p` in
direction `d`, of `grid[n].rules[d]`, with empty neighbors contributing no
constraint. -/
def validPatternsDepth0 (g : Grid) (p : Point) : List MetaPattern :=
  g.patterns.dedup.filter (fun t =>
    (g.neighborsD p).all (fun nd =>
      match g.cellAt nd.1 with
      | some q => decide (t ∈ g.rules q.uid nd.2)
      | none => true))

/-- The depth-≤-1 lookahead valid-pattern set in closed form: collapsed
neighbors contribute `rules[d]`; an empty neighbor contributes the union
of `q.rules[d]` over the patterns `q` of its own depth-0 set (what the
recursion computes at depth 1, where empty neighbors are skipped). -/
def lookaheadValidPatterns (g : Grid) (p : Point) : List MetaPattern :=
  g.patterns.dedup.filter (fun t =>
    (g.neighborsD p).all (fun nd =>
      match g.cellAt nd.1 with
      | some q => decide (t ∈ g.rules q.uid nd.2)
      | none => decide (∃ q ∈ validPatternsDepth0 g nd.1, t ∈ g.rules q.uid nd.2)))

/-- Least-entropy selection in the words of claim C6: minimum positive
entropy, ties by distance of the `(row, col)` cell to the grid center
`(height/2, width/2)`, remaining ties by row-major scan order. -/
def claimLeastEntropyCell (g : Grid) : Option Point :=
  let positives := g.allCells.filter (fun p => decide (0 < g.entropyAt p))
  match (positives.map g.entropyAt).min? with
  | none => none
  | some m =>
    let minCells := g.allCells.filter (fun p => decide (g.entropyAt p = m))
    let f : Point → Int := fun p => sqDist p ((g.height : Int) / 2, (g.width : Int) / 2)
    minCells.find? (fun p => decide ((minCells.map f).min? = some (f p)))

/-- Least-entropy selection in the words of the amended claim: as in C6
but with the tie-break distance taken to the pair
`(width // 2, height // 2)` that the source compares `(row, col)` against. -/
def amendedLeastEntropyCell (g : Grid) : Option Point :=
  let positives := g.allCells.filter (fun p => decide (0 < g.entropyAt p))
  match (positives.map g.entropyAt).min? with
  | none => none
  | some m =>
    let minCells := g.allCells.filter (fun p => decide (g.entropyAt p = m))
    let f : Point → Int := fun p => sqDist p ((g.width : Int) / 2, (g.height : Int) / 2)
    minCells.find? (fun p => decide ((minCells.map f).min? = some (f p)))

/-! ## Concrete instances used by witnesses and counterexamples -/

/-- Palette member `A`: uid 0, allowed to neighbor only `A` (below). -/
def pA : MetaPattern := ⟨0, "A", 1, 1⟩

/-- Palette member `B`: uid 1, allowed to neighbor only `B` (below). -/
def pB : MetaPattern := ⟨1, "B", 1, 1⟩

/-- Rule lookup of the two-pattern palette: `A` tiles only against `A`,
`B` only against `B`, in every direction (a symmetric rule set). -/
def rulesAB : Int → Direction → List MetaPattern := fun u _ =>
  if u = 0 then [pA] else if u = 1 then [pB] else []

/-- A fresh 1×3 grid over the palette, all cells empty at entropy 2. -/
def gFresh : Grid :=
  { width := 3, height := 1, patterns := [pA, pB], rules := rulesAB
    grid := [[none, none, none]], entropy := [[2, 2, 2]] }

/-- A 1×3 grid with `A` collapsed at `(0,0)` and an entropy field that
makes `(0,2)` the least-entropy cell. -/
def gEx : Grid :=
  { width := 3, height := 1, patterns := [pA, pB], rules := rulesAB
    grid := [[some pA, none, none]], entropy := [[0, 5, 1]] }

/-- A fresh 1×4 grid over the palette. -/
def g4 : Grid :=
  { width := 4, height := 1, patterns := [pA, pB], rules := rulesAB
    grid := [[none, none, none, none]], entropy := [[2, 2, 2, 2]] }

/-- A scripted judge: CONTINUE while `(0,2)` is empty, then ROLLBACK(1);
rollback penalty 0 (the tabu is disabled). -/
def JRoll : Judge :=
  ⟨fun g => if (g.cellAt ⟨0, 2⟩).isSome then .ROLLBACK 1 else .CONTINUE, 0⟩

/-- The advisor that picks the first (least-uid) candidate. -/
def AHead : AdvisorFun := fun cands _ _ => cands.head?

/-- Initialized WFC state on the fresh 1×4 grid with the default rollback
cap (`⌊√4⌋ = 2`). -/
def W0 : WFCState := ⟨g4, 0, calculateMaxRollbacks none g4, ⟨[], []⟩, true⟩

/-- The trace `W0 → W1 → W2 → W3 → W4` under `JRoll`/`AHead`: three PLACE
steps at `(0,0)`, `(0,1)`, `(0,2)`, then one ROLLBACK(1) step. -/
def W1 : WFCState := WFC.stepState JRoll AHead W0

/-- Second trace state (after placing at `(0,1)`). -/
def W2 : WFCState := WFC.stepState JRoll AHead W1

/-- Third trace state (after placing at `(0,2)`). -/
def W3 : WFCState := WFC.stepState JRoll AHead W2

/-- Fourth trace state (after the ROLLBACK(1) step undoing `(0,2)`). -/
def W4 : WFCState := WFC.stepState JRoll AHead W3

/-- Initialized WFC state on `gEx` (no rollback cap concerns). -/
def WEx : WFCState := ⟨gEx, 0, some 5, ⟨[], []⟩, true⟩

/-- Initialized WFC state on the fresh 1×4 grid with `max_rollbacks = 0`
and `rollback_count = 0 ≥ 0` (the C5 boundary case). -/
def W5 : WFCState := ⟨g4, 0, some 0, ⟨[], []⟩, true⟩

/-! ## Shape and collapse invariants used by the rollback theorems -/

/-- Shape well-formedness: both arrays are `height` rows of `width`. -/
def Grid.WFShape (g : Grid) : Prop :=
  g.grid.length = g.height ∧ (∀ r ∈ g.grid, r.length = g.width) ∧
  g.entropy.length = g.height ∧ (∀ r ∈ g.entropy, r.length = g.width)

instance (g : Grid) : Decidable g.WFShape := by
  unfold Grid.WFShape
  exact inferInstance

/-- The collapsed-entropy invariant of the spec (§8.2): every non-empty
cell has entropy 0. -/
def Grid.CollapsedZero (g : Grid) : Prop :=
  ∀ p ∈ g.allCells, (g.cellAt p).isSome → g.entropyAt p = 0

instance (g : Grid) : Decidable g.CollapsedZero := by
  unfold Grid.CollapsedZero
  exact List.decidableBAll _ _

/-- A step result records a successful placement: it succeeded and chose a
pattern (only the pattern-placing path of `WFC.step` sets both). -/
def isPlaceResult (r : StepResult) : Prop :=
  r.success = true ∧ r.chosenPattern.isSome

instance (r : StepResult) : Decidable (isPlaceResult r) := by
  unfold isPlaceResult
  exact instDecidableAnd

/-- The per-neighbor constraint test of `get_valid_patterns` at
`(depth, max_depth)`, in closed form: collapsed neighbors test membership
in their rules, empty neighbors are vacuous at the depth cap and otherwise
test membership in the union of the rules of the neighbor's recursive
set. -/
def gvpPred (g : Grid) (recurse : Point → List MetaPattern) (skipEmpty : Bool)
    (nd : Point × Direction) (t : MetaPattern) : Bool :=
  match g.cellAt nd.1 with
  | some q => decide (t ∈ g.rules q.uid nd.2)
  | none =>
    if skipEmpty then true
    else decide (t ∈ (recurse nd.1).flatMap (fun q => g.rules q.uid nd.2))

/-- Bidirectional consistency of a registered palette, in the words of C7:
`q ∈ p.rules[d] ⇔ p ∈ q.rules[opposite(d)]` for all registered `p`, `q`
and every direction. -/
def Repository.Symmetric (r : Repository) : Prop :=
  ∀ p ∈ r.patterns, ∀ q ∈ r.patterns, ∀ d : Direction,
    (q ∈ r.rules p.uid d ↔ p ∈ r.rules q.uid d.opposite)

instance (r : Repository) : Decidable r.Symmetric := by
  unfold Repository.Symmetric
  exact List.decidableBAll _ _

/-- The symmetric two-pattern repository over `rulesAB`. -/
def repoAB : Repository := ⟨[pA, pB], rulesAB⟩

/-- An asymmetric rule lookup: `A` admits `B` above (`UP`) but `B` admits
nothing below (`DOWN`), the S6 shape of the spec. -/
def rulesBad : Int → Direction → List MetaPattern := fun u d =>
  if u = 0 then (match d with | .UP => [pB] | _ => []) else []

/-- The asymmetric repository used against the validator. -/
def repoBad : Repository := ⟨[pA, pB], rulesBad⟩

/-- A fully collapsed 2×2 grid over the palette, for the round-trip
witness. -/
def gSer : Grid :=
  { width := 2, height := 2, patterns := [pA, pB], rules := rulesAB
    grid := [[some pA, some pB], [some pB, some pA]], entropy := [[0, 0], [0, 0]] }

/-- `k` default steps of the orchestrator from a state. -/
def WFC.stepIter (J : Judge) (A : AdvisorFun) (k : Nat) (W : WFCState) : WFCState :=
  (WFC.stepState J A)^[k] W

/-- Initialized WFC state whose rollback count (5) has exceeded its
positive cap (2). -/
def W6 : WFCState := ⟨g4, 5, some 2, ⟨[], []⟩, true⟩

/-- Generic row-major matrix read with a default (both the pattern array
and the entropy array are read this way). -/
def getMat {α : Type} (m : List (List α)) (p : Point) (d : α) : α :=
  (m.getD p.x.toNat []).getD p.y.toNat d

/-! ## First-argmin characterization (`np.argmin` keeps the earliest tie) -/

/-- The minimum of a list bounds each member. -/
theorem min?_le_of_mem {l : List Int} {m y : Int} (h : l.min? = some m) (hy : y ∈ l) :
    m ≤ y :=
  ((List.le_min?_iff (fun _ _ _ => le_min_iff) h).mp le_rfl) y hy

/-- The argmin fold keeps its seed when nothing beats it. -/
theorem foldl_argmin_keep {α : Type} (f : α → Int) :
    ∀ (xs : List α) (b : α), (∀ y ∈ xs, ¬ f y < f b) →
      xs.foldl (fun b y => if f y < f b then y else b) b = b := by
  intro xs
  induction xs with
  | nil => intro b _; rfl
  | cons y ys ih =>
    intro b h
    simp only [List.foldl_cons]
    rw [if_neg (h y (List.mem_cons_self y ys))]
    exact ih b (fun z hz => h z (List.mem_cons_of_mem y hz))

/-- `foldl min` against a seed, expressed through `min?`. -/
theorem int_foldl_min :
    ∀ (l : List Int) (a : Int),
      l.foldl min a = (match l.min? with | none => a | some m => min a m) := by
  intro l
  induction l with
  | nil => intro a; rfl
  | cons b bs ih =>
    intro a
    have hb := ih b
    simp only [List.foldl_cons]
    rw [ih (min a b)]
    cases hbs : bs.min? with
    | none =>
      have hb' : List.foldl min b bs = b := by rw [hb, hbs]
      show a ⊓ b = a ⊓ List.foldl min b bs
      rw [hb']
    | some m =>
      have hb' : List.foldl min b bs = b ⊓ m := by rw [hb, hbs]
      show a ⊓ b ⊓ m = a ⊓ List.foldl min b bs
      rw [hb']
      exact min_assoc a b m

/-- `min?` of a cons, case form. -/
theorem int_min?_cons (a : Int) (l : List Int) :
    (a :: l).min? = some (match l.min? with | none => a | some m => min a m) := by
  rw [List.min?_cons']
  rw [int_foldl_min l a]

/-- When the list minimum beats the seed, the argmin fold forgets the
seed and computes the first argmin of the list itself. -/
theorem foldl_argmin_of_min_lt {α : Type} (f : α → Int) :
    ∀ (xs : List α) (b : α) (m : Int), (xs.map f).min? = some m → m < f b →
      xs.foldl (fun b y => if f y < f b then y else b) b =
        (firstArgmin f xs).getD b := by
  intro xs
  induction xs with
  | nil => intro b m hmin _; simp at hmin
  | cons y ys ih =>
    intro b m hmin hlt
    rw [List.map_cons, int_min?_cons (f y) (ys.map f)] at hmin
    by_cases hy : f y < f b
    · simp only [List.foldl_cons, if_pos hy, firstArgmin, Option.getD_some]
    · have hby : f b ≤ f y := not_lt.mp hy
      simp only [List.foldl_cons, if_neg hy]
      cases h' : (ys.map f).min? with
      | none =>
        rw [h'] at hmin
        simp only [Option.some.injEq] at hmin
        omega
      | some m' =>
        rw [h'] at hmin
        simp only [Option.some.injEq] at hmin
        have hm'b : m' < f b := by
          rcases min_choice (f y) m' with hc | hc <;> rw [hc] at hmin <;> omega
        have hys : ys ≠ [] := by
          intro hE; subst hE; simp at h'
        have h1 := ih b m' h' hm'b
        have h2 := ih y m' h' (lt_of_lt_of_le hm'b hby)
        rw [h1]
        cases ys with
        | nil => exact absurd rfl hys
        | cons z zs =>
          simp only [firstArgmin, Option.getD_some] at h2 ⊢
          rw [← h2]

/-- `firstArgmin` is the first member whose value is the list minimum. -/
theorem firstArgmin_eq_find {α : Type} (f : α → Int) :
    ∀ (l : List α),
      l.find? (fun a => decide ((l.map f).min? = some (f a))) = firstArgmin f l := by
  intro l
  induction l with
  | nil => rfl
  | cons x xs ih =>
    cases h' : (xs.map f).min? with
    | none =>
      have hxs : xs = [] := List.map_eq_nil_iff.mp (List.min?_eq_none_iff.mp h')
      subst hxs
      simp [firstArgmin, List.find?]
    | some m' =>
      have hMcons : ((x :: xs).map f).min? = some (min (f x) m') := by
        rw [List.map_cons, int_min?_cons (f x) (xs.map f), h']
      by_cases hx : f x ≤ m'
      · have hMx : ((x :: xs).map f).min? = some (f x) := by
          rw [hMcons, min_eq_left hx]
        rw [List.find?_cons_of_pos _ (by simp only [hMx, Option.some.injEq, decide_eq_true_eq])]
        have hkeep : xs.foldl (fun b y => if f y < f b then y else b) x = x := by
          apply foldl_argmin_keep
          intro y hy
          have : m' ≤ f y := min?_le_of_mem h' (List.mem_map_of_mem f hy)
          omega
        simp [firstArgmin, hkeep]
      · have hm'x : m' < f x := not_le.mp hx
        have hMm : ((x :: xs).map f).min? = some m' := by
          rw [hMcons, min_eq_right (le_of_lt hm'x)]
        rw [List.find?_cons_of_neg _ (by
          simp only [hMm, decide_eq_false_iff_not]
          intro hc
          have := Option.some.inj (of_decide_eq_true hc)
          omega)]
        have hpred : (fun a => decide (((x :: xs).map f).min? = some (f a))) =
            (fun a => decide ((xs.map f).min? = some (f a))) := by
          funext a; rw [hMm, h']
        rw [hpred, ih]
        cases xs with
        | nil => simp at h'
        | cons z zs =>
          simp only [firstArgmin, Option.some.injEq]
          have := foldl_argmin_of_min_lt f (z :: zs) x m' h' hm'x
          simp only [firstArgmin, Option.getD_some] at this
          exact this.symm

/-- A one-element list is its own first argmin. -/
theorem firstArgmin_singleton {α : Type} (f : α → Int) (a : α) :
    firstArgmin f [a] = some a := rfl

/-- C6 (amended): the source's least-entropy selection agrees with the
amended description: minimum positive entropy, ties by squared distance
of the `(row, col)` index to `(width // 2, height // 2)` (the *swapped*
center coordinates, not the `(height/2, width/2)` of the claim),
remaining ties by row-major scan order; `None` when no cell has positive
entropy. -/
theorem findLeastEntropyCell_eq_amended (g : Grid) :
    g.findLeastEntropyCell = amendedLeastEntropyCell g := by
  unfold Grid.findLeastEntropyCell amendedLeastEntropyCell
  cases hmin : ((g.allCells.filter (fun p => decide (0 < g.entropyAt p))).map g.entropyAt).min? with
  | none => simp only [hmin]
  | some m =>
    simp only [hmin]
    rw [firstArgmin_eq_find]
    by_cases hlen :
        (g.allCells.filter (fun p => decide (g.entropyAt p = m))).length = 1
    · obtain ⟨a, ha⟩ := List.length_eq_one.mp hlen
      rw [if_pos hlen, ha]
      rfl
    · rw [if_neg hlen]

/-- On the fresh 1×3 grid every cell ties at entropy 2, the source selects
`(0, 0)`, yet the tied cell `(0, 1)` is strictly closer to the grid center
`(height/2, width/2)` named by C6 — the code measures distance to
`(width//2, height//2)` instead, so C6's tie-break description is false. -/
theorem findLeastEntropyCell_claim_false :
    gFresh.findLeastEntropyCell = some ⟨0, 0⟩ ∧
    claimLeastEntropyCell gFresh = some ⟨0, 1⟩ ∧
    gFresh.entropyAt ⟨0, 1⟩ = gFresh.entropyAt ⟨0, 0⟩ ∧
    0 < gFresh.entropyAt ⟨0, 1⟩ ∧
    sqDist ⟨0, 1⟩ ((gFresh.height : Int) / 2, (gFresh.width : Int) / 2) <
      sqDist ⟨0, 0⟩ ((gFresh.height : Int) / 2, (gFresh.width : Int) / 2) := by
  decide

/-- The neighbor fold of `get_valid_patterns` filters the accumulator by
the conjunction of the per-neighbor constraints. -/
theorem gvpAux_eq_filter (g : Grid) (recurse : Point → List MetaPattern) (skipEmpty : Bool) :
    ∀ (l : List (Point × Direction)) (acc : List MetaPattern),
      gvpAux g recurse skipEmpty l acc =
        acc.filter (fun t => l.all (fun nd => gvpPred g recurse skipEmpty nd t)) := by
  intro l
  induction l with
  | nil =>
    intro acc
    rw [gvpAux]
    simp [List.all_nil]
  | cons nd rest ih =>
    intro acc
    obtain ⟨n, d⟩ := nd
    cases hcell : g.cellAt n with
    | none =>
      cases hskip : skipEmpty with
      | true =>
        subst hskip
        simp only [gvpAux, hcell, if_pos]
        rw [ih]
        apply List.filter_congr
        intro t _
        simp only [List.all_cons, gvpPred, hcell, if_pos, Bool.true_and]
      | false =>
        subst hskip
        simp only [gvpAux, hcell, Bool.false_eq_true, if_false]
        rw [ih, List.filter_filter]
        apply List.filter_congr
        intro t _
        simp only [List.all_cons, gvpPred, hcell, Bool.false_eq_true, if_false]
        rw [Bool.and_comm]
    | some q =>
      simp only [gvpAux, hcell]
      rw [ih, List.filter_filter]
      apply List.filter_congr
      intro t _
      simp only [List.all_cons, gvpPred, hcell]
      rw [Bool.and_comm]

/-- Pointwise-equal predicates give equal `List.all`. -/
theorem list_all_congr {α : Type} {p q : α → Bool} :
    ∀ {l : List α}, (∀ x ∈ l, p x = q x) → l.all p = l.all q := by
  intro l
  induction l with
  | nil => intro _; rfl
  | cons a as ih =>
    intro h
    simp only [List.all_cons]
    rw [h a (List.mem_cons_self a as), ih (fun x hx => h x (List.mem_cons_of_mem a hx))]

/-- At budget 0 (`depth = max_depth`), `get_valid_patterns` is exactly the
depth-0 set of the spec: empty neighbors are skipped. -/
theorem gvpGo_zero_eq_depth0 (g : Grid) (p : Point) :
    gvpGo g 0 p = validPatternsDepth0 g p := by
  rw [gvpGo, gvpAux_eq_filter]
  unfold validPatternsDepth0
  apply List.filter_congr
  intro t _
  apply list_all_congr
  intro nd _
  cases hcell : g.cellAt nd.1 with
  | none => simp [gvpPred, hcell]
  | some q => simp [gvpPred, hcell]

/-- C1 (amended): the candidate set the collapse loop computes (the
default `get_valid_patterns(p)` call of `WFC._validate_patterns`, with
`depth=0`, `max_depth=1`) is not the depth-0 set but the depth-≤-1
lookahead set: collapsed neighbors contribute `rules[d]` and empty
neighbors contribute the union of `q.rules[d]` over their own depth-0
patterns `q`. -/
theorem getValidPatterns_default_eq_lookahead (g : Grid) (p : Point) :
    g.getValidPatterns p 0 1 = lookaheadValidPatterns g p := by
  show gvpGo g 1 p = lookaheadValidPatterns g p
  rw [gvpGo, gvpAux_eq_filter]
  unfold lookaheadValidPatterns
  apply List.filter_congr
  intro t _
  apply list_all_congr
  intro nd _
  cases hcell : g.cellAt nd.1 with
  | some q => simp [gvpPred, hcell]
  | none =>
    simp only [gvpPred, hcell, Bool.false_eq_true, if_false]
    rw [gvpGo_zero_eq_depth0]
    exact decide_eq_decide.mpr List.mem_flatMap

/-- On `gEx` the collapse loop selects `(0, 2)` and hands the advisor the
lookahead candidate set `{A}` (uid 0), while the depth-0 set of C1 is
`{A, B}` (uids 0, 1): the loop does not use the depth-0 set. -/
theorem collapseLoopCandidates_claim_false :
    (WFC.step JRoll AHead true WEx).1.chosenPoint = some ⟨0, 2⟩ ∧
    ((WFC.step JRoll AHead true WEx).2.history.snapshots.map
      (fun s => s.possiblePatternUids)) = [[0]] ∧
    (gEx.getValidPatterns ⟨0, 2⟩ 0 1).map MetaPattern.uid = [0] ∧
    (validPatternsDepth0 gEx ⟨0, 2⟩).map MetaPattern.uid = [0, 1] := by
  decide

/-- C10: `Grid.deserialize` writes the pattern array and the dimensions
from the file but never the entropy array, whatever the file contents (in
particular when the loaded dimensions differ from the entropy's shape). -/
theorem deserialize_frame (g : Grid) (r : Repository) (file : List (List Int)) :
    (g.deserialize r file).entropy = g.entropy ∧
    (g.deserialize r file).height = file.length ∧
    (g.deserialize r file).patterns = g.patterns := by
  refine ⟨rfl, ?_, rfl⟩
  unfold Grid.deserialize
  simp

/-- Closed form of the rollback loop: with `k` requested undo steps it
pops `min k stack.length` snapshots from the top of the stack (stopping
early when the stack empties), resets each popped action point in LIFO
order, and never touches the full log. -/
theorem rollbackLoop_spec (pen : Nat) :
    ∀ (k : Nat) (g : Grid) (h : History),
      rollbackLoop pen k g h =
        (((h.rollbackSnapshots.drop
              (h.rollbackSnapshots.length - min k h.rollbackSnapshots.length)).reverse).foldl
            (fun g s => g.resetPoint s.actionPoint pen) g,
         ⟨h.snapshots,
          h.rollbackSnapshots.take
            (h.rollbackSnapshots.length - min k h.rollbackSnapshots.length)⟩) := by
  intro k
  induction k with
  | zero =>
    intro g h
    simp [rollbackLoop, List.drop_length, List.take_length]
  | succ k ih =>
    intro g h
    rcases List.eq_nil_or_concat h.rollbackSnapshots with hnil | ⟨l, s, hcat⟩
    · rw [rollbackLoop]
      unfold History.getLastRollbackSnapshotPop
      rw [hnil]
      simp only [List.getLast?_nil, List.length_nil, Nat.min_zero, Nat.sub_zero,
        List.drop_nil, List.reverse_nil, List.foldl_nil, List.take_nil]
      rw [← hnil]
    · rw [List.concat_eq_append] at hcat
      have hpop : h.getLastRollbackSnapshotPop = (some s, ⟨h.snapshots, l⟩) := by
        unfold History.getLastRollbackSnapshotPop
        rw [hcat, List.getLast?_concat, List.dropLast_concat]
      simp only [rollbackLoop, hpop]
      rw [ih]
      dsimp only
      rw [hcat]
      have hmin : min (k + 1) (l.length + 1) = min k l.length + 1 := Nat.succ_min_succ k l.length
      have hlen : (l ++ [s]).length = l.length + 1 := by simp
      have hsub : l.length + 1 - (min k l.length + 1) = l.length - min k l.length := by omega
      have hle : l.length - min k l.length ≤ l.length := by omega
      rw [hlen, hmin, hsub]
      rw [List.drop_append_of_le_length hle, List.take_append_of_le_length hle]
      simp

/-- C4 (amended): `WFC.rollback` with `ROLLBACK(n)` pops at most `n`
snapshots (early stop on stack exhaustion), resets the action point of
each popped snapshot in LIFO order, leaves the full log intact — but
increments `rollback_count` by the full `n` even when fewer snapshots were
actually undone. -/
theorem rollback_amended_spec (J : Judge) (g : Grid) (h : History) (cnt : Int) (n : Int) :
    (WFC.rollback J g h cnt n).2.2 = cnt + n ∧
    (WFC.rollback J g h cnt n).2.1.snapshots = h.snapshots ∧
    (WFC.rollback J g h cnt n).2.1.rollbackSnapshots =
      h.rollbackSnapshots.take
        (h.rollbackSnapshots.length - min n.toNat h.rollbackSnapshots.length) ∧
    (WFC.rollback J g h cnt n).1 =
      ((h.rollbackSnapshots.drop
          (h.rollbackSnapshots.length - min n.toNat h.rollbackSnapshots.length)).reverse).foldl
        (fun g s => g.resetPoint s.actionPoint J.rollbackPenalty) g := by
  unfold WFC.rollback
  rw [rollbackLoop_spec]
  exact ⟨rfl, rfl, rfl, rfl⟩

/-- Concrete refutation of C4's counting clause: from a history holding a
single PLACE snapshot, `ROLLBACK(2)` undoes one snapshot (the stack drops
from 1 to 0) yet increments `rollback_count` by 2, not by 1. -/
theorem rollback_count_claim_false :
    W1.history.rollbackSnapshots.length = 1 ∧
    (WFC.rollback JRoll W1.grid W1.history W1.rollbackCount 2).2.1.rollbackSnapshots.length = 0 ∧
    (WFC.rollback JRoll W1.grid W1.history W1.rollbackCount 2).2.2 = W1.rollbackCount + 2 ∧
    W1.rollbackCount + 2 ≠ W1.rollbackCount + 1 := by
  decide

/-- C5 (amended): with a positive finite cap already reached, `step`
returns a failed result with outcome `ROLLBACK_LIMIT_EXCEEDED` and leaves
the state untouched, for every judge and advisor (neither is consulted). -/
theorem step_rollbackLimit (J : Judge) (A : AdvisorFun) (W : WFCState) (m : Int)
    (hInit : W.isInit = true) (hm : W.maxRollbacks = some m)
    (hm1 : 1 ≤ m) (hcnt : m ≤ W.rollbackCount) :
    (WFC.step J A true W).1 =
      { StepResult.default with outcome := some .ROLLBACK_LIMIT_EXCEEDED } ∧
    (WFC.step J A true W).2 = W := by
  have hE : ensureInit W = W := by
    unfold ensureInit
    rw [if_pos hInit]
  have h1 : rollbackLimitHit W.maxRollbacks W.rollbackCount = true := by
    unfold rollbackLimitHit
    rw [hm]
    simp only [Bool.and_eq_true, decide_eq_true_eq]
    omega
  unfold WFC.step
  simp only [hE, h1, if_true, StepResult.default, History.addStep]
  exact ⟨trivial, trivial⟩

/-- Witness for `step_rollbackLimit` at the concrete state `W6`
(cap 2, count 5). -/
theorem step_rollbackLimit_witness :
    (WFC.step JRoll AHead true W6).1 =
      { StepResult.default with outcome := some .ROLLBACK_LIMIT_EXCEEDED } ∧
    (WFC.step JRoll AHead true W6).2 = W6 :=
  step_rollbackLimit JRoll AHead W6 2 rfl rfl (by decide) (by decide)

/-- Concrete refutation of C5's `max_rollbacks = 0` clause: with a cap of
0 and `rollback_count = 0 ≥ 0`, the Python truthiness test skips the cap
check and the step places a pattern successfully instead of failing with
`ROLLBACK_LIMIT_EXCEEDED`. -/
theorem rollbackLimit_zero_claim_false :
    W5.maxRollbacks = some 0 ∧ W5.rollbackCount = 0 ∧ (0 : Int) ≤ 0 ∧
    (WFC.step JRoll AHead true W5).1.success = true ∧
    (WFC.step JRoll AHead true W5).1.outcome ≠ some Outcome.ROLLBACK_LIMIT_EXCEEDED := by
  decide

/-- Shape of a `WFC.step` that takes the rollback branch: the judge
decided `ROLLBACK(n)` (reachable only past the cap check with a non-empty
rollback stack), the state is updated by `WFC.rollback`, and the `finally`
`add_step` appends nothing because the result has no chosen point. -/
theorem step_rollback_branch (J : Judge) (A : AdvisorFun) (W : WFCState)
    (hInit : W.isInit = true)
    (hLimit : rollbackLimitHit W.maxRollbacks W.rollbackCount = false)
    (hStack : W.history.rollbackSnapshots ≠ [])
    (n : Int) (hDec : J.decide W.grid = Decision.ROLLBACK n) :
    WFC.step J A true W =
      ({ StepResult.default with success := true },
       ⟨(WFC.rollback J W.grid W.history W.rollbackCount n).1,
        (WFC.rollback J W.grid W.history W.rollbackCount n).2.2,
        W.maxRollbacks,
        (WFC.rollback J W.grid W.history W.rollbackCount n).2.1,
        W.isInit⟩) := by
  have hE : ensureInit W = W := by
    unfold ensureInit
    rw [if_pos hInit]
  have h2 : W.history.rollbackSteps > 0 := by
    unfold History.rollbackSteps
    exact List.length_pos.mpr hStack
  unfold WFC.step
  simp only [hE, hLimit, Bool.false_eq_true, if_false, if_pos h2, hDec,
    StepResult.default, History.addStep]

/-- C3 (amended): a step whose judge decision is `ROLLBACK(n)` returns
`success = true` but appends no snapshot at all — the rollback path sets
no chosen point, so the `finally` `add_step` leaves the full log (and its
length) unchanged. -/
theorem step_rollback_success_no_snapshot (J : Judge) (A : AdvisorFun) (W : WFCState)
    (hInit : W.isInit = true)
    (hLimit : rollbackLimitHit W.maxRollbacks W.rollbackCount = false)
    (hStack : W.history.rollbackSnapshots ≠ [])
    (n : Int) (hDec : J.decide W.grid = Decision.ROLLBACK n) :
    (WFC.step J A true W).1.success = true ∧
    (WFC.step J A true W).1.chosenPoint = none ∧
    (WFC.step J A true W).2.history.snapshots = W.history.snapshots := by
  rw [step_rollback_branch J A W hInit hLimit hStack n hDec]
  refine ⟨rfl, rfl, ?_⟩
  show (WFC.rollback J W.grid W.history W.rollbackCount n).2.1.snapshots = W.history.snapshots
  unfold WFC.rollback
  rw [rollbackLoop_spec]

/-- Witness for `step_rollback_success_no_snapshot` on the concrete trace
state `W3`, where `JRoll` decides `ROLLBACK(1)`. -/
theorem step_rollback_success_no_snapshot_witness :
    (WFC.step JRoll AHead true W3).1.success = true ∧
    (WFC.step JRoll AHead true W3).1.chosenPoint = none ∧
    (WFC.step JRoll AHead true W3).2.history.snapshots = W3.history.snapshots :=
  step_rollback_success_no_snapshot JRoll AHead W3 (by decide) (by decide)
    (by decide) 1 (by decide)

/-- Concrete refutation of C3's snapshot clause: at `W3` the judge decides
`ROLLBACK(1)`, the step succeeds, yet the full log still has its three
PLACE snapshots and no ROLLBACK snapshot was appended (C3 promises exactly
one new ROLLBACK snapshot). -/
theorem step_rollback_snapshot_claim_false :
    JRoll.decide W3.grid = Decision.ROLLBACK 1 ∧
    (WFC.step JRoll AHead true W3).1.success = true ∧
    W3.history.snapshots.length = 3 ∧
    (WFC.step JRoll AHead true W3).2.history.snapshots.length = 3 ∧
    ((WFC.step JRoll AHead true W3).2.history.snapshots.filter
      (fun s => s.actionType = ActionType.ROLLBACK)).length = 0 := by
  decide

theorem vmFold {α : Type} (E : α → List ValidationError) :
    ∀ (l : List α) (msg : ValidationMessage),
      l.foldl (fun msg a =>
        ⟨if (E a).isEmpty then msg.result else .FAIL, msg.errors ++ E a⟩) msg =
      ⟨if (l.flatMap E).isEmpty then msg.result else .FAIL, msg.errors ++ l.flatMap E⟩ := by
  intro l
  induction l with
  | nil => intro msg; simp
  | cons a as ih =>
    intro msg
    have happ : ∀ (l1 l2 : List ValidationError),
        (l1 ++ l2).isEmpty = (l1.isEmpty && l2.isEmpty) := by
      intro l1 l2; cases l1 <;> simp
    simp only [List.foldl_cons]
    rw [ih]
    simp only [List.flatMap_cons, happ, List.append_assoc]
    cases hEa : (E a).isEmpty <;> cases hAs : (as.flatMap E).isEmpty <;>
      simp [hEa, hAs]

theorem validatePatterns_closed (r : Repository) :
    r.validatePatterns =
      ⟨if (r.patterns.flatMap (fun p => directionList.flatMap (fun d =>
          (r.rules p.uid d).dedup.flatMap (fun q =>
            if p ∈ r.rules q.uid (reverseDirections d) then []
            else [ValidationError.mk p.uid q.uid d])))).isEmpty then .SUCCESS else .FAIL,
       r.patterns.flatMap (fun p => directionList.flatMap (fun d =>
          (r.rules p.uid d).dedup.flatMap (fun q =>
            if p ∈ r.rules q.uid (reverseDirections d) then []
            else [ValidationError.mk p.uid q.uid d])))⟩ := by
  have hInner : ∀ (p : MetaPattern) (d : Direction) (msg : ValidationMessage),
      ((r.rules p.uid d).dedup.foldl (fun msg neighbour =>
        if p ∈ r.rules neighbour.uid (reverseDirections d) then msg
        else { result := .FAIL,
               errors := msg.errors ++ [ValidationError.mk p.uid neighbour.uid d] }) msg) =
      ⟨if ((r.rules p.uid d).dedup.flatMap (fun q =>
          if p ∈ r.rules q.uid (reverseDirections d) then []
          else [ValidationError.mk p.uid q.uid d])).isEmpty then msg.result else .FAIL,
       msg.errors ++ (r.rules p.uid d).dedup.flatMap (fun q =>
          if p ∈ r.rules q.uid (reverseDirections d) then []
          else [ValidationError.mk p.uid q.uid d])⟩ := by
    intro p d msg
    have hfun : (fun (msg : ValidationMessage) (neighbour : MetaPattern) =>
        if p ∈ r.rules neighbour.uid (reverseDirections d) then msg
        else { result := ValidationResult.FAIL,
               errors := msg.errors ++ [⟨p.uid, neighbour.uid, d⟩] }) =
        (fun (msg : ValidationMessage) (q : MetaPattern) =>
          (⟨if ((fun q => if p ∈ r.rules q.uid (reverseDirections d) then []
                else [ValidationError.mk p.uid q.uid d]) q).isEmpty then msg.result else .FAIL,
            msg.errors ++ (fun q => if p ∈ r.rules q.uid (reverseDirections d) then []
                else [ValidationError.mk p.uid q.uid d]) q⟩ : ValidationMessage)) := by
      funext msg q
      by_cases h : p ∈ r.rules q.uid (reverseDirections d) <;> simp [h]
    rw [hfun, vmFold]
  have hMid : ∀ (p : MetaPattern) (msg : ValidationMessage),
      directionList.foldl (fun msg direction =>
        ((r.rules p.uid direction).dedup).foldl (fun msg neighbour =>
          if p ∈ r.rules neighbour.uid (reverseDirections direction) then msg
          else { result := .FAIL,
                 errors := msg.errors ++ [ValidationError.mk p.uid neighbour.uid direction] }) msg) msg =
      ⟨if (directionList.flatMap (fun d => (r.rules p.uid d).dedup.flatMap (fun q =>
          if p ∈ r.rules q.uid (reverseDirections d) then []
          else [ValidationError.mk p.uid q.uid d]))).isEmpty then msg.result else .FAIL,
       msg.errors ++ directionList.flatMap (fun d => (r.rules p.uid d).dedup.flatMap (fun q =>
          if p ∈ r.rules q.uid (reverseDirections d) then []
          else [ValidationError.mk p.uid q.uid d]))⟩ := by
    intro p msg
    have hfun2 : (fun (msg : ValidationMessage) (direction : Direction) =>
        ((r.rules p.uid direction).dedup).foldl (fun msg neighbour =>
          if p ∈ r.rules neighbour.uid (reverseDirections direction) then msg
          else { result := ValidationResult.FAIL,
                 errors := msg.errors ++ [ValidationError.mk p.uid neighbour.uid direction] }) msg) =
        (fun (msg : ValidationMessage) (d : Direction) =>
          (⟨if ((fun d => (r.rules p.uid d).dedup.flatMap (fun q =>
                if p ∈ r.rules q.uid (reverseDirections d) then []
                else [ValidationError.mk p.uid q.uid d])) d).isEmpty then msg.result
              else .FAIL,
            msg.errors ++ (fun d => (r.rules p.uid d).dedup.flatMap (fun q =>
                if p ∈ r.rules q.uid (reverseDirections d) then []
                else [ValidationError.mk p.uid q.uid d])) d⟩ : ValidationMessage)) := by
      funext msg d
      exact hInner p d msg
    rw [hfun2, vmFold]
  unfold Repository.validatePatterns
  have hfun3 : (fun (msg : ValidationMessage) (pattern : MetaPattern) =>
      directionList.foldl (fun msg direction =>
        ((r.rules pattern.uid direction).dedup).foldl (fun msg neighbour =>
          if pattern ∈ r.rules neighbour.uid (reverseDirections direction) then msg
          else { result := ValidationResult.FAIL,
                 errors := msg.errors ++ [ValidationError.mk pattern.uid neighbour.uid direction] }) msg) msg) =
      (fun (msg : ValidationMessage) (p : MetaPattern) =>
        (⟨if ((fun p => directionList.flatMap (fun d => (r.rules p.uid d).dedup.flatMap (fun q =>
              if p ∈ r.rules q.uid (reverseDirections d) then []
              else [ValidationError.mk p.uid q.uid d]))) p).isEmpty then msg.result
            else .FAIL,
          msg.errors ++ (fun p => directionList.flatMap (fun d => (r.rules p.uid d).dedup.flatMap (fun q =>
              if p ∈ r.rules q.uid (reverseDirections d) then []
              else [ValidationError.mk p.uid q.uid d]))) p⟩ : ValidationMessage)) := by
    funext msg p
    exact hMid p msg
  rw [hfun3, vmFold]
  simp

theorem direction_mem_directionList (d : Direction) : d ∈ directionList := by
  cases d <;> decide

theorem validate_mem_errors (r : Repository) (e : ValidationError) :
    e ∈ r.validatePatterns.errors ↔
      ∃ p ∈ r.patterns, ∃ d : Direction, ∃ q ∈ r.rules p.uid d,
        p ∉ r.rules q.uid d.opposite ∧ e = ValidationError.mk p.uid q.uid d := by
  rw [validatePatterns_closed]
  simp only [List.mem_flatMap, List.mem_dedup, reverseDirections]
  constructor
  · rintro ⟨p, hp, d, _, q, hq, he⟩
    by_cases hbad : p ∈ r.rules q.uid d.opposite
    · rw [if_pos hbad] at he
      exact absurd he (List.not_mem_nil e)
    · rw [if_neg hbad] at he
      have := List.mem_singleton.mp he
      exact ⟨p, hp, d, q, hq, hbad, this⟩
  · rintro ⟨p, hp, d, q, hq, hbad, he⟩
    refine ⟨p, hp, d, direction_mem_directionList d, q, hq, ?_⟩
    rw [if_neg hbad]
    exact List.mem_singleton.mpr he

theorem validate_result_success_iff (r : Repository) :
    r.validatePatterns.result = .SUCCESS ↔ r.validatePatterns.errors = [] := by
  rw [validatePatterns_closed]
  cases hE : (r.patterns.flatMap (fun p => directionList.flatMap (fun d =>
      (r.rules p.uid d).dedup.flatMap (fun q =>
        if p ∈ r.rules q.uid (reverseDirections d) then []
        else [ValidationError.mk p.uid q.uid d])))).isEmpty
  · simp only [hE, Bool.false_eq_true, if_false]
    constructor
    · intro hc; exact absurd hc (by simp)
    · intro hc
      rw [hc] at hE
      simp at hE
  · rw [List.isEmpty_iff] at hE
    simp [hE]

/-- C7: for a registered palette with unique uids and rules closed over
the palette, `validate_patterns` reports `SUCCESS` with an empty error
list iff the palette is bidirectionally consistent
(`q ∈ p.rules[d] ⇔ p ∈ q.rules[opposite(d)]`); the result is `SUCCESS`
exactly when the error list is empty, so otherwise it returns `FAIL`,
and its error list holds exactly one `ValidationError (p.uid, q.uid, d)`
per violating triple (`q ∈ p.rules[d]` but `p ∉ q.rules[opposite(d)]`),
with no duplicates and nothing else, and no rule set is modified (the
validator never writes: `Repository.validatePatterns` reads `r` only). -/
theorem validatePatterns_bidirectional (r : Repository)
    (hU : (r.patterns.map MetaPattern.uid).Nodup)
    (hC : ∀ p ∈ r.patterns, ∀ d : Direction, ∀ q ∈ r.rules p.uid d, q ∈ r.patterns) :
    ((r.validatePatterns.result = .SUCCESS ∧ r.validatePatterns.errors = []) ↔
        r.Symmetric) ∧
    (r.validatePatterns.result = .SUCCESS ↔ r.validatePatterns.errors = []) ∧
    (¬ r.Symmetric → r.validatePatterns.result = .FAIL) ∧
    r.validatePatterns.errors.Nodup ∧
    (∀ p ∈ r.patterns, ∀ d : Direction, ∀ q ∈ r.rules p.uid d,
      (ValidationError.mk p.uid q.uid d ∈ r.validatePatterns.errors ↔
        p ∉ r.rules q.uid d.opposite)) ∧
    (∀ e ∈ r.validatePatterns.errors, ∃ p ∈ r.patterns, ∃ d : Direction,
      ∃ q ∈ r.rules p.uid d,
        p ∉ r.rules q.uid d.opposite ∧ e = ValidationError.mk p.uid q.uid d) := by
  have hinj : ∀ a ∈ r.patterns, ∀ b ∈ r.patterns, a.uid = b.uid → a = b := by
    intro a ha b hb hab
    exact List.inj_on_of_nodup_map hU ha hb hab
  have hOpp : ∀ d : Direction, d.opposite.opposite = d := by
    intro d; cases d <;> rfl
  have hmemTriple : ∀ p ∈ r.patterns, ∀ d : Direction, ∀ q ∈ r.rules p.uid d,
      (ValidationError.mk p.uid q.uid d ∈ r.validatePatterns.errors ↔
        p ∉ r.rules q.uid d.opposite) := by
    intro p hp d q hq
    rw [validate_mem_errors]
    constructor
    · rintro ⟨p', hp', d', q', hq', hbad', he⟩
      injection he with h1 h2 h3
      subst h3
      have hpp : p = p' := hinj p hp p' hp' h1
      subst hpp
      have hqq : q = q' :=
        hinj q (hC p hp d q hq) q' (hC p hp d q' hq') h2
      subst hqq
      exact hbad'
    · intro hbad
      exact ⟨p, hp, d, q, hq, hbad, rfl⟩
  have hfieldL : ∀ (p : MetaPattern) (d : Direction) (e : ValidationError),
      e ∈ (r.rules p.uid d).dedup.flatMap (fun q =>
        if p ∈ r.rules q.uid (reverseDirections d) then []
        else [ValidationError.mk p.uid q.uid d]) →
      e.patternUid = p.uid ∧ e.direction = d := by
    intro p d e he
    obtain ⟨q, _, hin⟩ := List.mem_flatMap.mp he
    by_cases h : p ∈ r.rules q.uid (reverseDirections d)
    · rw [if_pos h] at hin
      exact absurd hin (List.not_mem_nil e)
    · rw [if_neg h] at hin
      rw [List.mem_singleton.mp hin]
      exact ⟨rfl, rfl⟩
  have hfieldM : ∀ (p : MetaPattern) (e : ValidationError),
      e ∈ directionList.flatMap (fun d => (r.rules p.uid d).dedup.flatMap (fun q =>
        if p ∈ r.rules q.uid (reverseDirections d) then []
        else [ValidationError.mk p.uid q.uid d])) →
      e.patternUid = p.uid := by
    intro p e he
    obtain ⟨d, _, hin⟩ := List.mem_flatMap.mp he
    exact (hfieldL p d e hin).1
  have hMain : (r.validatePatterns.result = .SUCCESS ∧ r.validatePatterns.errors = []) ↔
      r.Symmetric := by
    rw [validate_result_success_iff, and_self]
    constructor
    · intro hE
      intro p hp q hq d
      constructor
      · intro hqd
        by_contra hbad
        have hmem := (hmemTriple p hp d q hqd).mpr hbad
        rw [hE] at hmem
        exact absurd hmem (List.not_mem_nil _)
      · intro hpq
        by_contra hqd
        have hmem := (hmemTriple q hq d.opposite p hpq).mpr (by rw [hOpp]; exact hqd)
        rw [hE] at hmem
        exact absurd hmem (List.not_mem_nil _)
    · intro hSym
      rw [List.eq_nil_iff_forall_not_mem]
      intro e he
      obtain ⟨p, hp, d, q, hq, hbad, _⟩ := (validate_mem_errors r e).mp he
      exact hbad ((hSym p hp q (hC p hp d q hq) d).mp hq)
  have hFail : ¬ r.Symmetric → r.validatePatterns.result = .FAIL := by
    intro hNS
    cases hres : r.validatePatterns.result with
    | SUCCESS =>
      exact absurd (hMain.mp ⟨hres, (validate_result_success_iff r).mp hres⟩) hNS
    | FAIL => rfl
  refine ⟨hMain, validate_result_success_iff r, hFail, ?_, hmemTriple,
    fun e he => (validate_mem_errors r e).mp he⟩
  · rw [validatePatterns_closed]
    apply List.nodup_flatMap.mpr
    constructor
    · intro p hp
      apply List.nodup_flatMap.mpr
      constructor
      · intro d _
        apply List.nodup_flatMap.mpr
        constructor
        · intro q _
          by_cases h : p ∈ r.rules q.uid (reverseDirections d) <;> simp [h]
        · have hqs : ((r.rules p.uid d).dedup).Nodup := List.nodup_dedup _
          refine List.Pairwise.imp_of_mem ?_ hqs
          intro q q' hqm hq'm hne e he he'
          dsimp only at he he'
          have hqr : q ∈ r.rules p.uid d := List.mem_dedup.mp hqm
          have hq'r : q' ∈ r.rules p.uid d := List.mem_dedup.mp hq'm
          by_cases h : p ∈ r.rules q.uid (reverseDirections d)
          · rw [if_pos h] at he
            exact absurd he (List.not_mem_nil e)
          · by_cases h' : p ∈ r.rules q'.uid (reverseDirections d)
            · rw [if_pos h'] at he'
              exact absurd he' (List.not_mem_nil e)
            · rw [if_neg h] at he
              rw [if_neg h'] at he'
              rw [List.mem_singleton.mp he] at he'
              injection List.mem_singleton.mp he' with _ h2 _
              exact hne (hinj q (hC p hp d q hqr) q' (hC p hp d q' hq'r) h2)
      · have hds : directionList.Nodup := by decide
        refine hds.imp ?_
        intro d d' hne e he he'
        dsimp only at he he'
        have h1 := (hfieldL p d e he).2
        have h2 := (hfieldL p d' e he').2
        exact hne (h1 ▸ h2 ▸ rfl)
    · have hPat : List.Pairwise (fun a b => a.uid ≠ b.uid) r.patterns :=
        List.pairwise_map.mp hU
      refine hPat.imp ?_
      intro p p' hne e he he'
      dsimp only at he he'
      have h1 := hfieldM p e he
      have h2 := hfieldM p' e he'
      exact hne (h1 ▸ h2 ▸ rfl)

/-- Witness for `validatePatterns_bidirectional` on the symmetric
two-pattern repository `repoAB`. -/
theorem validatePatterns_bidirectional_witness :
    ((repoAB.validatePatterns.result = .SUCCESS ∧ repoAB.validatePatterns.errors = []) ↔
        repoAB.Symmetric) ∧
    (repoAB.validatePatterns.result = .SUCCESS ↔ repoAB.validatePatterns.errors = []) ∧
    (¬ repoAB.Symmetric → repoAB.validatePatterns.result = .FAIL) ∧
    repoAB.validatePatterns.errors.Nodup ∧
    (∀ p ∈ repoAB.patterns, ∀ d : Direction, ∀ q ∈ repoAB.rules p.uid d,
      (ValidationError.mk p.uid q.uid d ∈ repoAB.validatePatterns.errors ↔
        p ∉ repoAB.rules q.uid d.opposite)) ∧
    (∀ e ∈ repoAB.validatePatterns.errors, ∃ p ∈ repoAB.patterns, ∃ d : Direction,
      ∃ q ∈ repoAB.rules p.uid d,
        p ∉ repoAB.rules q.uid d.opposite ∧ e = ValidationError.mk p.uid q.uid d) :=
  validatePatterns_bidirectional repoAB (by decide) (by decide)

/-- A map that fixes every member of a list is the identity on it. -/
theorem map_id_of_mem {α : Type} :
    ∀ (l : List α) (f : α → α), (∀ x ∈ l, f x = x) → l.map f = l := by
  intro l
  induction l with
  | nil => intro f _; rfl
  | cons a as ih =>
    intro f h
    simp only [List.map_cons]
    rw [h a (List.mem_cons_self a as), ih f (fun x hx => h x (List.mem_cons_of_mem a hx))]

/-- With pairwise distinct uids, the linear uid lookup of
`Repository.get_pattern_by_uid` returns the registered pattern itself. -/
theorem find_uid_of_mem :
    ∀ (l : List MetaPattern), (l.map MetaPattern.uid).Nodup →
      ∀ pat ∈ l, l.find? (fun p => decide (p.uid = pat.uid)) = some pat := by
  intro l
  induction l with
  | nil => intro _ pat hpat; exact absurd hpat (List.not_mem_nil pat)
  | cons a as ih =>
    intro hU pat hpat
    rw [List.map_cons, List.nodup_cons] at hU
    rcases List.mem_cons.mp hpat with heq | htail
    · subst heq
      rw [List.find?_cons_of_pos _ (by simp)]
    · by_cases ha : a.uid = pat.uid
      · exact absurd (ha ▸ (List.mem_map_of_mem MetaPattern.uid htail)) hU.1
      · rw [List.find?_cons_of_neg _ (by simp [ha])]
        exact ih hU.2 pat htail

/-- With pairwise distinct uids, the linear uid lookup of
`Repository.get_pattern_by_uid` returns the registered pattern itself. -/
theorem getPatternByUid_of_mem (r : Repository)
    (hU : (r.patterns.map MetaPattern.uid).Nodup) :
    ∀ pat ∈ r.patterns, r.getPatternByUid pat.uid = some pat := by
  unfold Repository.getPatternByUid
  exact find_uid_of_mem r.patterns hU

/-- C8: serializing a fully collapsed grid (one uid per cell, `-1`
reserved for empty) and deserializing the result through a repository in
which the palette is registered with unique, non-sentinel uids restores
the pattern array and the dimensions: `deserialize(serialize(g)) == g`. -/
theorem serialize_roundtrip (g : Grid) (r : Repository)
    (hU : (r.patterns.map MetaPattern.uid).Nodup)
    (hcells : ∀ row ∈ g.grid, ∀ c ∈ row,
      ∃ pat, c = some pat ∧ pat ∈ r.patterns ∧ pat.uid ≠ HIDDEN_CELL)
    (hshape : g.WFShape) (hpos : 0 < g.height) :
    (g.deserialize r g.serialize).grid = g.grid ∧
    (g.deserialize r g.serialize).height = g.height ∧
    (g.deserialize r g.serialize).width = g.width := by
  have hgrid : (g.deserialize r g.serialize).grid = g.grid := by
    unfold Grid.deserialize Grid.serialize
    simp only [List.map_map]
    apply map_id_of_mem
    intro row hrow
    rw [Function.comp_apply, List.map_map]
    apply map_id_of_mem
    intro c hc
    obtain ⟨pat, hcp, hmem, huid⟩ := hcells row hrow c hc
    subst hcp
    rw [Function.comp_apply]
    simp only [huid, if_pos, ne_eq, not_false_iff]
    exact getPatternByUid_of_mem r hU pat hmem
  refine ⟨hgrid, ?_, ?_⟩
  · have h0 : (g.deserialize r g.serialize).height =
        (g.deserialize r g.serialize).grid.length := rfl
    rw [h0, hgrid, hshape.1]
  · have h0 : (g.deserialize r g.serialize).width =
        ((g.deserialize r g.serialize).grid.headD []).length := rfl
    rw [h0, hgrid]
    cases hg : g.grid with
    | nil =>
      have hlen := hshape.1
      rw [hg] at hlen
      simp at hlen
      omega
    | cons row rest =>
      simp only [List.headD_cons]
      exact hshape.2.1 row (by rw [hg]; exact List.mem_cons_self row rest)

/-- Witness for `serialize_roundtrip` on the fully collapsed 2×2 grid
`gSer` over the registered palette `repoAB`. -/
theorem serialize_roundtrip_witness :
    (gSer.deserialize repoAB gSer.serialize).grid = gSer.grid ∧
    (gSer.deserialize repoAB gSer.serialize).height = gSer.height ∧
    (gSer.deserialize repoAB gSer.serialize).width = gSer.width :=
  serialize_roundtrip gSer repoAB (by decide) (by decide) (by decide) (by decide)

/-- Filter length is monotone in the predicate. -/
theorem length_filter_mono {α : Type} (p q : α → Bool) :
    ∀ (l : List α), (∀ x ∈ l, p x = true → q x = true) →
      (l.filter p).length ≤ (l.filter q).length := by
  intro l
  induction l with
  | nil => intro _; exact Nat.le_refl 0
  | cons a as ih =>
    intro h
    have htail := ih (fun x hx => h x (List.mem_cons_of_mem a hx))
    cases hpa : p a
    · rw [List.filter_cons_of_neg (by simp [hpa])]
      cases hqa : q a
      · rw [List.filter_cons_of_neg (by simp [hqa])]
        exact htail
      · rw [List.filter_cons_of_pos (by simp [hqa])]
        exact Nat.le_succ_of_le htail
    · have hqa : q a = true := h a (List.mem_cons_self a as) hpa
      rw [List.filter_cons_of_pos (by simp [hpa]), List.filter_cons_of_pos (by simp [hqa])]
      simpa using htail

/-- Marking a fresh in-bounds point visited strictly shrinks the
unvisited-cell count. -/
theorem length_filter_cons_lt :
    ∀ (l v : List Point) (n : Point), n ∈ l → n ∉ v →
      (l.filter (fun p => decide (p ∉ n :: v))).length <
        (l.filter (fun p => decide (p ∉ v))).length := by
  intro l
  induction l with
  | nil => intro v n hn; exact absurd hn (List.not_mem_nil n)
  | cons a as ih =>
    intro v n hn hv
    by_cases han : a = n
    · subst han
      rw [List.filter_cons_of_neg (by simp)]
      rw [List.filter_cons_of_pos (by simp [hv])]
      have hmono := length_filter_mono
        (fun p => decide (p ∉ a :: v)) (fun p => decide (p ∉ v)) as
        (by
          intro x _ hx
          simp only [decide_eq_true_eq] at hx ⊢
          intro hxv
          exact hx (List.mem_cons_of_mem a hxv))
      simp only [List.length_cons]
      omega
    · have hn' : n ∈ as := by
        rcases List.mem_cons.mp hn with h | h
        · exact absurd h.symm han
        · exact h
      have hsame : (decide (a ∉ n :: v)) = (decide (a ∉ v)) := by
        by_cases hav : a ∈ v
        · simp [hav, List.mem_cons]
        · simp [hav, List.mem_cons, han]
      have := ih v n hn' hv
      cases hva : decide (a ∉ v)
      · rw [List.filter_cons_of_neg (by rw [hsame, hva]; exact Bool.false_ne_true),
          List.filter_cons_of_neg (by rw [hva]; exact Bool.false_ne_true)]
        exact this
      · rw [List.filter_cons_of_pos (by rw [hsame, hva]), List.filter_cons_of_pos (by rw [hva])]
        simpa using this

/-- In-bounds points are among the grid's cells. -/
theorem mem_allCells_of_inGridBounds (g : Grid) (p : Point)
    (h : g.inGridBounds p = true) : p ∈ g.allCells := by
  unfold Grid.inGridBounds at h
  simp only [Bool.and_eq_true, decide_eq_true_eq] at h
  obtain ⟨⟨⟨hx0, hxh⟩, hy0⟩, hyw⟩ := h
  unfold Grid.allCells
  have hx : (p.x.toNat : Int) = p.x := Int.toNat_of_nonneg hx0
  have hy : (p.y.toNat : Int) = p.y := Int.toNat_of_nonneg hy0
  apply List.mem_flatMap.mpr
  refine ⟨p.x.toNat, List.mem_range.mpr ?_, ?_⟩
  · have hlt : (p.x.toNat : Int) < (g.height : Int) := by rw [hx]; exact hxh
    exact_mod_cast hlt
  · apply List.mem_map.mpr
    refine ⟨p.y.toNat, List.mem_range.mpr ?_, ?_⟩
    · have hlt : (p.y.toNat : Int) < (g.width : Int) := by rw [hy]; exact hyw
      exact_mod_cast hlt
    · cases p
      simp only at hx hy
      congr 1

/-- Neighbors returned by `get_neighbors` are grid cells. -/
theorem getNeighbors_mem_allCells (g : Grid) (c : Point) :
    ∀ n ∈ g.getNeighbors c, n ∈ g.allCells := by
  intro n hn
  unfold Grid.getNeighbors Grid.neighborsD at hn
  rw [List.mem_map] at hn
  obtain ⟨⟨n', d⟩, hmem, hfst⟩ := hn
  rw [List.mem_filterMap] at hmem
  obtain ⟨d', _, hd'⟩ := hmem
  by_cases hb : g.inGridBounds ⟨c.x + d'.dx, c.y + d'.dy⟩
  · rw [if_pos hb] at hd'
    have h1 := Option.some.inj hd'
    have h2 : (⟨c.x + d'.dx, c.y + d'.dy⟩ : Point) = n' := congrArg Prod.fst h1
    rw [← hfst]
    show n' ∈ g.allCells
    rw [← h2]
    exact mem_allCells_of_inGridBounds g _ hb
  · rw [if_neg hb] at hd'
    exact absurd hd' (by simp)

/-- The enqueue fold never increases the BFS measure. -/
theorem ueEnqueue_measure (g : Grid) :
    ∀ (ns : List Point) (s : UEState), (∀ n ∈ ns, n ∈ g.allCells) →
      ueMeasure g (ueEnqueue s ns) ≤ ueMeasure g s := by
  intro ns
  induction ns with
  | nil => intro s _; exact Nat.le_refl _
  | cons n ns ih =>
    intro s hmem
    unfold ueEnqueue
    rw [List.foldl_cons]
    by_cases hv : n ∈ s.visited
    · rw [if_pos hv]
      exact ih s (fun m hm => hmem m (List.mem_cons_of_mem n hm))
    · rw [if_neg hv]
      have hstep : ueMeasure g
          ⟨s.queue ++ [n], n :: s.visited, s.entropy⟩ ≤ ueMeasure g s := by
        unfold ueMeasure
        simp only [List.length_append, List.length_cons, List.length_nil]
        have := length_filter_cons_lt g.allCells s.visited n
          (hmem n (List.mem_cons_self n ns)) hv
        omega
      calc ueMeasure g (ueEnqueue ⟨s.queue ++ [n], n :: s.visited, s.entropy⟩ ns)
          ≤ ueMeasure g ⟨s.queue ++ [n], n :: s.visited, s.entropy⟩ :=
            ih _ (fun m hm => hmem m (List.mem_cons_of_mem n hm))
        _ ≤ ueMeasure g s := hstep

/-- Each loop iteration on a non-empty queue strictly decreases the BFS
measure. -/
theorem ueBody_measure_lt (g : Grid) (s : UEState) (hq : s.queue ≠ []) :
    ueMeasure g (ueBody g s) < ueMeasure g s := by
  cases hqe : s.queue with
  | nil => exact absurd hqe hq
  | cons c rest =>
    unfold ueBody
    rw [hqe]
    dsimp only
    have hlen : ueMeasure g { s with queue := rest } < ueMeasure g s := by
      unfold ueMeasure
      rw [hqe]
      simp only [List.length_cons]
      omega
    by_cases hcell : (g.cellAt c).isSome
    · rw [if_pos hcell]
      exact hlen
    · rw [if_neg hcell]
      by_cases hent : ueEntropyAt s.entropy c = ((g.getValidPatterns c 0 1).length : Int)
      · rw [if_pos hent]
        exact hlen
      · rw [if_neg hent]
        have hsub := ueEnqueue_measure g (g.getNeighbors c)
          ⟨rest, s.visited, setMat s.entropy c ((g.getValidPatterns c 0 1).length : Int)⟩
          (getNeighbors_mem_allCells g c)
        have : ueMeasure g
            ⟨rest, s.visited, setMat s.entropy c ((g.getValidPatterns c 0 1).length : Int)⟩ <
            ueMeasure g s := by
          unfold ueMeasure
          rw [hqe]
          simp only [List.length_cons]
          omega
        omega

/-- A drained queue is absorbing for the loop body. -/
theorem ueBody_fix (g : Grid) (s : UEState) (hq : s.queue = []) : ueBody g s = s := by
  unfold ueBody
  rw [hq]

/-- Once drained, the queue stays drained under iteration. -/
theorem ueBody_iterate_fix (g : Grid) :
    ∀ (k : Nat) (s : UEState), s.queue = [] → ((ueBody g)^[k] s).queue = [] := by
  intro k
  induction k with
  | zero => intro s hq; exact hq
  | succ k ih =>
    intro s hq
    rw [Function.iterate_succ_apply, ueBody_fix g s hq]
    exact ih s hq

/-- C9: the `update_entropy` BFS always terminates — from every start
state the queue is drained after at most `ueMeasure` iterations, and in
particular after exactly the `ueMeasure` iterations `Grid.updateEntropy`
runs. -/
theorem updateEntropy_terminates (g : Grid) (p : Point) :
    (∃ n, n ≤ ueMeasure g (ueInit g p) ∧ ((ueBody g)^[n] (ueInit g p)).queue = []) ∧
    ((ueBody g)^[ueMeasure g (ueInit g p)] (ueInit g p)).queue = [] := by
  have main : ∀ (m : Nat) (s : UEState), ueMeasure g s = m →
      ∃ n, n ≤ ueMeasure g s ∧ ((ueBody g)^[n] s).queue = [] := by
    intro m
    induction m using Nat.strong_induction_on with
    | _ m ih =>
      intro s hm
      cases hq : s.queue with
      | nil => exact ⟨0, Nat.zero_le _, hq⟩
      | cons c rest =>
        have hdec : ueMeasure g (ueBody g s) < ueMeasure g s :=
          ueBody_measure_lt g s (by rw [hq]; exact List.cons_ne_nil c rest)
        obtain ⟨n, hn, hterm⟩ :=
          ih (ueMeasure g (ueBody g s)) (by omega) (ueBody g s) rfl
        refine ⟨n + 1, by omega, ?_⟩
        rw [Function.iterate_succ_apply]
        exact hterm
  obtain ⟨n, hn, hterm⟩ := main (ueMeasure g (ueInit g p)) (ueInit g p) rfl
  refine ⟨⟨n, hn, hterm⟩, ?_⟩
  have : ueMeasure g (ueInit g p) = n + (ueMeasure g (ueInit g p) - n) := by omega
  rw [this, Nat.add_comm, Function.iterate_add_apply]
  exact ueBody_iterate_fix g _ _ hterm

/-! ## Matrix write/read lemmas for the rollback-reversibility analysis -/

/-- `getD` after `set` at the same index. -/
theorem getD_set_self {α : Type} (l : List α) (i : Nat) (v d : α) (h : i < l.length) :
    (l.set i v).getD i d = v := by
  rw [List.getD_eq_getElem?_getD, List.getElem?_set_self (by simpa using h)]
  rfl

/-- `getD` after `set` at a different index. -/
theorem getD_set_ne {α : Type} (l : List α) (i j : Nat) (v d : α) (h : i ≠ j) :
    (l.set i v).getD j d = l.getD j d := by
  rw [List.getD_eq_getElem?_getD, List.getElem?_set_ne h, ← List.getD_eq_getElem?_getD]

/-- Setting an entry to the value it already holds is the identity. -/
theorem set_eq_self_of_getElem? {α : Type} :
    ∀ (l : List α) (i : Nat) (v : α), l[i]? = some v → l.set i v = l := by
  intro l
  induction l with
  | nil => intro i v h; simp at h
  | cons a as ih =>
    intro i v h
    cases i with
    | zero =>
      simp only [List.getElem?_cons_zero, Option.some.injEq] at h
      rw [← h]
      rfl
    | succ i =>
      simp only [List.getElem?_cons_succ] at h
      simp only [List.set_cons_succ]
      rw [ih i v h]

/-- Out-of-bounds `set` is the identity. -/
theorem set_oob {α : Type} :
    ∀ (l : List α) (i : Nat) (v : α), l.length ≤ i → l.set i v = l := by
  intro l
  induction l with
  | nil => intro i v _; rfl
  | cons a as ih =>
    intro i v h
    cases i with
    | zero => simp at h
    | succ i =>
      simp only [List.length_cons] at h
      simp only [List.set_cons_succ]
      rw [ih i v (by omega)]

/-- Reading back an in-bounds matrix write. -/
theorem getMat_setMat_self {α : Type} (m : List (List α)) (p : Point) (v d : α)
    (hx : p.x.toNat < m.length) (hy : p.y.toNat < (m.getD p.x.toNat []).length) :
    getMat (setMat m p v) p d = v := by
  unfold getMat setMat
  rw [getD_set_self _ _ _ _ (by simpa using hx)]
  rw [getD_set_self _ _ _ _ hy]

/-- A matrix write does not change reads at a different index pair. -/
theorem getMat_setMat_ne {α : Type} (m : List (List α)) (p q : Point) (v d : α)
    (h : ¬(q.x.toNat = p.x.toNat ∧ q.y.toNat = p.y.toNat)) :
    getMat (setMat m p v) q d = getMat m q d := by
  unfold getMat setMat
  by_cases hx : q.x.toNat = p.x.toNat
  · have hy : q.y.toNat ≠ p.y.toNat := fun hc => h ⟨hx, hc⟩
    rw [hx]
    by_cases hxb : p.x.toNat < m.length
    · rw [getD_set_self _ _ _ _ (by simpa using hxb)]
      rw [getD_set_ne _ _ _ _ _ (fun hc => hy hc.symm)]
    · rw [set_oob m p.x.toNat _ (by omega)]
  · rw [getD_set_ne _ _ _ _ _ (fun hc => hx hc.symm)]

/-- Overwriting the same cell twice keeps only the second write. -/
theorem setMat_setMat {α : Type} (m : List (List α)) (p : Point) (v w : α) :
    setMat (setMat m p v) p w = setMat m p w := by
  unfold setMat
  by_cases hx : p.x.toNat < m.length
  · rw [getD_set_self _ _ _ _ hx, List.set_set, List.set_set]
  · rw [set_oob m p.x.toNat _ (by omega)]

/-- Writing the value a cell already holds is the identity. -/
theorem setMat_eq_self {α : Type} (m : List (List α)) (p : Point) (v d : α)
    (h : getMat m p d = v) : setMat m p v = m := by
  unfold setMat
  unfold getMat at h
  by_cases hx : p.x.toNat < m.length
  · have hrow : m[p.x.toNat]? = some (m.getD p.x.toNat []) := by
      cases hg : m[p.x.toNat]? with
      | none =>
        rw [List.getElem?_eq_none_iff] at hg
        omega
      | some r =>
        rw [List.getD_eq_getElem?_getD, hg]
        rfl
    by_cases hy : p.y.toNat < (m.getD p.x.toNat []).length
    · have hval : (m.getD p.x.toNat [])[p.y.toNat]? = some v := by
        rw [List.getD_eq_getElem?_getD] at h
        cases hg : (m.getD p.x.toNat [])[p.y.toNat]? with
        | none =>
          rw [List.getElem?_eq_none_iff] at hg
          omega
        | some a =>
          rw [hg] at h
          simp only [Option.getD_some] at h
          rw [h]
      rw [set_eq_self_of_getElem? _ _ _ hval]
      exact set_eq_self_of_getElem? _ _ _ hrow
    · rw [set_oob (m.getD p.x.toNat []) p.y.toNat v (by omega)]
      exact set_eq_self_of_getElem? _ _ _ hrow
  · rw [set_oob m p.x.toNat _ (by omega)]

/-- Distinct points with non-negative coordinates have distinct row-major
index pairs. -/
theorem index_pair_ne_of_ne (p q : Point)
    (hp : 0 ≤ p.x ∧ 0 ≤ p.y) (hq : 0 ≤ q.x ∧ 0 ≤ q.y) (hne : q ≠ p) :
    ¬(q.x.toNat = p.x.toNat ∧ q.y.toNat = p.y.toNat) := by
  rintro ⟨h1, h2⟩
  apply hne
  have hx : q.x = p.x := by
    rw [← Int.toNat_of_nonneg hq.1, ← Int.toNat_of_nonneg hp.1, h1]
  have hy : q.y = p.y := by
    rw [← Int.toNat_of_nonneg hq.2, ← Int.toNat_of_nonneg hp.2, h2]
  cases p
  cases q
  simp only at hx hy
  rw [hx, hy]

/-- Cells of the grid have non-negative coordinates. -/
theorem allCells_nonneg (g : Grid) : ∀ p ∈ g.allCells, 0 ≤ p.x ∧ 0 ≤ p.y := by
  intro p hp
  unfold Grid.allCells at hp
  rw [List.mem_flatMap] at hp
  obtain ⟨i, _, hp⟩ := hp
  rw [List.mem_map] at hp
  obtain ⟨j, _, hp⟩ := hp
  rw [← hp]
  exact ⟨Int.ofNat_nonneg i, Int.ofNat_nonneg j⟩

/-- Undoing a block of placements at distinct, initially empty cells
restores the pattern matrix: writing the patterns and then resetting the
same cells in reverse order is the identity. -/
theorem places_resets :
    ∀ (L : List (Point × MetaPattern)) (M : List (List (Option MetaPattern))),
      (∀ pp ∈ L, 0 ≤ pp.1.x ∧ 0 ≤ pp.1.y) →
      (∀ pp ∈ L, getMat M pp.1 none = none) →
      (L.map Prod.fst).Nodup →
      ((L.map Prod.fst).reverse).foldl (fun m p => setMat m p none)
        (L.foldl (fun m pp => setMat m pp.1 (some pp.2)) M) = M := by
  intro L
  induction L with
  | nil => intro M _ _ _; rfl
  | cons pp L' ih =>
    intro M hnn hempty hnd
    obtain ⟨p, pat⟩ := pp
    simp only [List.map_cons, List.reverse_cons, List.foldl_cons, List.foldl_append,
      List.foldl_cons, List.foldl_nil]
    simp only [List.map_cons, List.nodup_cons] at hnd
    have hM' : ∀ qq ∈ L', getMat (setMat M p (some pat)) qq.1 none = none := by
      intro qq hqq
      have hne : qq.1 ≠ p := by
        intro hc
        exact hnd.1 (hc ▸ List.mem_map_of_mem Prod.fst hqq)
      rw [getMat_setMat_ne _ _ _ _ _
        (index_pair_ne_of_ne p qq.1
          (hnn (p, pat) (List.mem_cons_self _ _))
          (hnn qq (List.mem_cons_of_mem _ hqq)) hne)]
      exact hempty qq (List.mem_cons_of_mem _ hqq)
    rw [ih (setMat M p (some pat))
      (fun qq hqq => hnn qq (List.mem_cons_of_mem _ hqq)) hM' hnd.2]
    rw [setMat_setMat]
    exact setMat_eq_self M p none none (hempty (p, pat) (List.mem_cons_self _ _))

/-- `place_pattern` writes exactly one pattern cell. -/
theorem placePattern_grid (g : Grid) (p : Point) (pat : MetaPattern) :
    (g.placePattern p pat).grid = setMat g.grid p (some pat) := rfl

/-- `update_entropy` never touches the pattern array or the static fields. -/
theorem updateEntropy_frame (g : Grid) (p : Point) :
    (g.updateEntropy p).grid = g.grid ∧
    (g.updateEntropy p).patterns = g.patterns ∧
    (g.updateEntropy p).width = g.width ∧
    (g.updateEntropy p).height = g.height := ⟨rfl, rfl, rfl, rfl⟩

/-- `reset_point` empties exactly one pattern cell. -/
theorem resetPoint_grid (g : Grid) (p : Point) (pen : Nat) :
    (g.resetPoint p pen).grid = setMat g.grid p none := by
  unfold Grid.resetPoint
  dsimp only
  split <;> rfl

/-- The rollback loop's fold of resets empties exactly the popped action
points (in order) in the pattern matrix. -/
theorem resetFold_grid (pen : Nat) :
    ∀ (l : List Snapshot) (g : Grid),
      (l.foldl (fun g s => g.resetPoint s.actionPoint pen) g).grid =
        (l.map Snapshot.actionPoint).foldl (fun m p => setMat m p none) g.grid := by
  intro l
  induction l with
  | nil => intro g; rfl
  | cons s l' ih =>
    intro g
    simp only [List.foldl_cons, List.map_cons]
    rw [ih, resetPoint_grid]

/-- Matrix reads only depend on the row-major index pair. -/
theorem getMat_congr {α : Type} (m : List (List α)) (p q : Point) (d : α)
    (hx : p.x.toNat = q.x.toNat) (hy : p.y.toNat = q.y.toNat) :
    getMat m p d = getMat m q d := by
  unfold getMat
  rw [hx, hy]

/-- Cells of the grid are within the array bounds. -/
theorem allCells_bounds (g : Grid) :
    ∀ p ∈ g.allCells, p.x.toNat < g.height ∧ p.y.toNat < g.width := by
  intro p hp
  unfold Grid.allCells at hp
  rw [List.mem_flatMap] at hp
  obtain ⟨i, hi, hp⟩ := hp
  rw [List.mem_map] at hp
  obtain ⟨j, hj, hp⟩ := hp
  rw [List.mem_range] at hi hj
  rw [← hp]
  simp only [Int.toNat_ofNat]
  exact ⟨hi, hj⟩

/-- `allCells` only depends on the dimensions. -/
theorem allCells_congr (g g' : Grid) (hh : g.height = g'.height) (hw : g.width = g'.width) :
    g.allCells = g'.allCells := by
  unfold Grid.allCells
  rw [hh, hw]

/-- `setMat` preserves the shape of a matrix. -/
theorem setMat_shape {α : Type} (m : List (List α)) (p : Point) (v : α)
    (h w : Nat) (hl : m.length = h) (hr : ∀ r ∈ m, r.length = w) :
    (setMat m p v).length = h ∧ ∀ r ∈ setMat m p v, r.length = w := by
  unfold setMat
  refine ⟨by simpa using hl, ?_⟩
  by_cases hx : p.x.toNat < m.length
  · intro r hrm
    rcases List.mem_or_eq_of_mem_set hrm with hmem | heq
    · exact hr r hmem
    · have hrow : m.getD p.x.toNat [] ∈ m := by
        rw [List.getD_eq_getElem?_getD, List.getElem?_eq_getElem hx]
        exact List.getElem_mem hx
      rw [heq, List.length_set]
      exact hr _ hrow
  · rw [set_oob m p.x.toNat _ (by omega)]
    exact hr

/-- The enqueue fold leaves the entropy array untouched. -/
theorem ueEnqueue_entropy :
    ∀ (ns : List Point) (s : UEState), (ueEnqueue s ns).entropy = s.entropy := by
  intro ns
  induction ns with
  | nil => intro s; rfl
  | cons n ns ih =>
    intro s
    unfold ueEnqueue
    rw [List.foldl_cons]
    by_cases hv : n ∈ s.visited
    · rw [if_pos hv]
      exact ih s
    · rw [if_neg hv]
      exact ih _

/-- The BFS loop never rewrites the entropy of a collapsed cell. -/
theorem ueIter_entropy_nonempty (g : Grid) (c : Point) (hc : (g.cellAt c).isSome) :
    ∀ (k : Nat) (s : UEState),
      getMat ((ueBody g)^[k] s).entropy c 0 = getMat s.entropy c 0 := by
  intro k
  induction k with
  | zero => intro s; rfl
  | succ k ih =>
    intro s
    rw [Function.iterate_succ_apply]
    rw [ih (ueBody g s)]
    unfold ueBody
    cases hq : s.queue with
    | nil => rfl
    | cons c' rest =>
      dsimp only
      by_cases hcell : (g.cellAt c').isSome
      · rw [if_pos hcell]
      · rw [if_neg hcell]
        by_cases hent : ueEntropyAt s.entropy c' = ((g.getValidPatterns c' 0 1).length : Int)
        · rw [if_pos hent]
        · rw [if_neg hent]
          show getMat (ueEnqueue _ _).entropy c 0 = getMat s.entropy c 0
          rw [ueEnqueue_entropy]
          show getMat (setMat s.entropy c' _) c 0 = getMat s.entropy c 0
          by_cases hpair : c.x.toNat = c'.x.toNat ∧ c.y.toNat = c'.y.toNat
          · exfalso
            have : g.cellAt c = g.cellAt c' := getMat_congr g.grid c c' none hpair.1 hpair.2
            rw [this] at hc
            exact hcell hc
          · exact getMat_setMat_ne _ _ _ _ _ hpair

/-- The BFS loop preserves the shape of the entropy array. -/
theorem ueIter_entropy_shape (g : Grid) (h w : Nat) :
    ∀ (k : Nat) (s : UEState), s.entropy.length = h → (∀ r ∈ s.entropy, r.length = w) →
      ((ueBody g)^[k] s).entropy.length = h ∧
        ∀ r ∈ ((ueBody g)^[k] s).entropy, r.length = w := by
  intro k
  induction k with
  | zero => intro s hl hr; exact ⟨hl, hr⟩
  | succ k ih =>
    intro s hl hr
    rw [Function.iterate_succ_apply]
    apply ih
    all_goals
      unfold ueBody
      cases hq : s.queue with
      | nil => first | exact hl | exact hr
      | cons c' rest =>
        dsimp only
        by_cases hcell : (g.cellAt c').isSome
        · rw [if_pos hcell]
          first | exact hl | exact hr
        · rw [if_neg hcell]
          by_cases hent : ueEntropyAt s.entropy c' = ((g.getValidPatterns c' 0 1).length : Int)
          · rw [if_pos hent]
            first | exact hl | exact hr
          · rw [if_neg hent]
            rw [ueEnqueue_entropy]
            first
            | exact (setMat_shape s.entropy c' _ h w hl hr).1
            | exact (setMat_shape s.entropy c' _ h w hl hr).2

/-- In-bounds default row reads have the uniform row length. -/
theorem getD_row_length {α : Type} (m : List (List α)) (x : Nat) (w : Nat)
    (hx : x < m.length) (hr : ∀ r ∈ m, r.length = w) :
    (m.getD x []).length = w := by
  rw [List.getD_eq_getElem?_getD, List.getElem?_eq_getElem hx]
  exact hr _ (List.getElem_mem hx)

/-- `update_entropy` leaves the entropy of a collapsed cell unchanged. -/
theorem updateEntropy_entropyAt_some (g : Grid) (p c : Point)
    (hc : (g.cellAt c).isSome) :
    (g.updateEntropy p).entropyAt c = g.entropyAt c := by
  show getMat ((ueBody g)^[ueMeasure g (ueInit g p)] (ueInit g p)).entropy c 0 =
    getMat g.entropy c 0
  rw [ueIter_entropy_nonempty g c hc]
  rfl

/-- `update_entropy` preserves the shape of the entropy array. -/
theorem updateEntropy_entropy_shape (g : Grid) (p : Point) (h w : Nat)
    (hl : g.entropy.length = h) (hr : ∀ r ∈ g.entropy, r.length = w) :
    (g.updateEntropy p).entropy.length = h ∧
      ∀ r ∈ (g.updateEntropy p).entropy, r.length = w :=
  ueIter_entropy_shape g h w _ (ueInit g p) hl hr

/-- The running argmin of the fold stays in the candidate pool. -/
theorem foldl_argmin_mem {α : Type} (f : α → Int) :
    ∀ (xs : List α) (b : α),
      xs.foldl (fun b y => if f y < f b then y else b) b ∈ b :: xs := by
  intro xs
  induction xs with
  | nil => intro b; exact List.mem_cons_self _ _
  | cons x xs ih =>
    intro b
    rw [List.foldl_cons]
    by_cases hx : f x < f b
    · rw [if_pos hx]
      rcases List.mem_cons.mp (ih x) with h | h
      · rw [h]; exact List.mem_cons_of_mem _ (List.mem_cons_self _ _)
      · exact List.mem_cons_of_mem _ (List.mem_cons_of_mem _ h)
    · rw [if_neg hx]
      rcases List.mem_cons.mp (ih b) with h | h
      · rw [h]; exact List.mem_cons_self _ _
      · exact List.mem_cons_of_mem _ (List.mem_cons_of_mem _ h)

/-- `np.argmin` returns an element of its argument. -/
theorem firstArgmin_mem {α : Type} (f : α → Int) (l : List α) (a : α)
    (h : firstArgmin f l = some a) : a ∈ l := by
  cases l with
  | nil => exact absurd h (by simp [firstArgmin])
  | cons x xs =>
    unfold firstArgmin at h
    exact Option.some.inj h ▸ foldl_argmin_mem f xs x

/-- A cell returned by `find_least_entropy_cell` is in bounds and has
positive entropy. -/
theorem findLeast_mem_pos (g : Grid) (p : Point)
    (h : g.findLeastEntropyCell = some p) :
    p ∈ g.allCells ∧ 0 < g.entropyAt p := by
  simp only [Grid.findLeastEntropyCell] at h
  cases hm : ((g.allCells.filter (fun q => decide (0 < g.entropyAt q))).map g.entropyAt).min? with
  | none =>
    rw [hm] at h
    exact absurd h (by simp)
  | some m =>
    rw [hm] at h
    dsimp only at h
    have hpmem : p ∈ g.allCells.filter (fun q => decide (g.entropyAt q = m)) := by
      by_cases hlen : (g.allCells.filter (fun q => decide (g.entropyAt q = m))).length = 1
      · rw [if_pos hlen] at h
        cases hc : g.allCells.filter (fun q => decide (g.entropyAt q = m)) with
        | nil => rw [hc] at h; exact absurd h (by simp)
        | cons a t =>
          rw [hc] at h
          simp only [List.head?_cons, Option.some.injEq] at h
          rw [← h]
          exact List.mem_cons_self _ _
      · rw [if_neg hlen] at h
        exact firstArgmin_mem _ _ _ h
    have hpfil := List.mem_filter.mp hpmem
    have hpe : g.entropyAt p = m := of_decide_eq_true hpfil.2
    refine ⟨hpfil.1, ?_⟩
    have hmm : m ∈ (g.allCells.filter (fun q => decide (0 < g.entropyAt q))).map g.entropyAt :=
      List.min?_mem (fun a b => min_choice a b) hm
    rw [List.mem_map] at hmm
    obtain ⟨q, hq, hqm⟩ := hmm
    have hqpos : 0 < g.entropyAt q := of_decide_eq_true (List.mem_filter.mp hq).2
    rw [hpe, ← hqm]
    exact hqpos

/-- A step that reports a successful placement took the final branch of
`WFC.step`: the advisor's pattern was placed on the least-entropy cell,
entropy was re-propagated and one PLACE snapshot was recorded. -/
theorem step_place_branch (J : Judge) (A : AdvisorFun) (W : WFCState)
    (hInit : W.isInit = true)
    (hpl : isPlaceResult (WFC.step J A true W).1) :
    ∃ pt pat,
      W.grid.findLeastEntropyCell = some pt ∧
      WFC.step J A true W =
        (⟨true, some pt, some pat, none, none⟩,
         ⟨(W.grid.placePattern pt pat).updateEntropy pt, W.rollbackCount, W.maxRollbacks,
          W.history.addStep ⟨true, some pt, some pat, none, none⟩
            ((W.grid.placePattern pt pat).updateEntropy pt) ActionType.PLACE
            (some (sortByUid (W.grid.getValidPatterns pt 0 1))), W.isInit⟩) := by
  have hE : ensureInit W = W := by
    unfold ensureInit
    rw [if_pos hInit]
  have hL : rollbackLimitHit W.maxRollbacks W.rollbackCount = false := by
    by_contra hc
    rw [Bool.not_eq_false] at hc
    unfold WFC.step at hpl
    simp [hE, hc, isPlaceResult, StepResult.default] at hpl
  unfold WFC.step at hpl
  simp only [hE, hL, Bool.false_eq_true, if_false] at hpl
  cases hD : (if W.history.rollbackSteps > 0 then J.decide W.grid else CONTINUE_DECISION) with
  | STOP =>
    simp only [hD] at hpl
    simp [isPlaceResult, StepResult.default] at hpl
  | ROLLBACK n =>
    simp only [hD] at hpl
    simp [isPlaceResult, StepResult.default] at hpl
  | CONTINUE =>
    simp only [hD] at hpl
    cases hF : W.grid.findLeastEntropyCell with
    | none =>
      simp only [hF] at hpl
      simp [isPlaceResult, StepResult.default] at hpl
    | some pt =>
      simp only [hF] at hpl
      by_cases hP : (W.grid.getValidPatterns pt 0 1).isEmpty = true
      · simp only [hP, Bool.and_true, if_true] at hpl
        simp [isPlaceResult, StepResult.default] at hpl
      · rw [Bool.not_eq_true] at hP
        simp only [hP, Bool.and_true, Bool.false_eq_true, if_false] at hpl
        cases hA : A (sortByUid (W.grid.getValidPatterns pt 0 1)) W.grid pt with
        | none =>
          simp only [hA] at hpl
          simp [isPlaceResult, StepResult.default] at hpl
        | some pat =>
          simp only [hA] at hpl
          cases hZ : ((W.grid.placePattern pt pat).updateEntropy pt).zeroEntropyCell with
          | some z =>
            simp only [hZ] at hpl
            simp [isPlaceResult, StepResult.default] at hpl
          | none =>
            refine ⟨pt, pat, rfl, ?_⟩
            unfold WFC.step
            simp only [hE, hL, Bool.false_eq_true, if_false, hD, hF, hP,
              Bool.and_true, hA, hZ, StepResult.default]

/-- Shape preservation of a placement followed by entropy propagation. -/
theorem place_update_shape (g : Grid) (pt : Point) (pat : MetaPattern)
    (hS : g.WFShape) : ((g.placePattern pt pat).updateEntropy pt).WFShape := by
  obtain ⟨hgl, hgr, hel, her⟩ := hS
  have hgrid : ((g.placePattern pt pat).updateEntropy pt).grid =
      setMat g.grid pt (some pat) := rfl
  have hw : ((g.placePattern pt pat).updateEntropy pt).width = g.width := rfl
  have hh : ((g.placePattern pt pat).updateEntropy pt).height = g.height := rfl
  have hgs := setMat_shape g.grid pt (some pat) g.height g.width hgl hgr
  have hes := updateEntropy_entropy_shape (g.placePattern pt pat) pt g.height g.width
    ((setMat_shape g.entropy pt 0 g.height g.width hel her).1)
    ((setMat_shape g.entropy pt 0 g.height g.width hel her).2)
  exact ⟨hgs.1, hgs.2, hes.1, hes.2⟩

/-- A placement followed by entropy propagation preserves the
collapsed-entropy invariant. -/
theorem place_update_inv (g : Grid) (pt : Point) (pat : MetaPattern)
    (hS : g.WFShape) (hInv : g.CollapsedZero) (hpt : pt ∈ g.allCells) :
    ((g.placePattern pt pat).updateEntropy pt).CollapsedZero := by
  obtain ⟨hgl, hgr, hel, her⟩ := hS
  obtain ⟨hxb, hyb⟩ := allCells_bounds g pt hpt
  have hbx : pt.x.toNat < g.grid.length := by rw [hgl]; exact hxb
  have hby : pt.y.toNat < (g.grid.getD pt.x.toNat []).length := by
    rw [getD_row_length g.grid _ g.width hbx hgr]; exact hyb
  have hbex : pt.x.toNat < g.entropy.length := by rw [hel]; exact hxb
  have hbey : pt.y.toNat < (g.entropy.getD pt.x.toNat []).length := by
    rw [getD_row_length g.entropy _ g.width hbex her]; exact hyb
  have hcells : ((g.placePattern pt pat).updateEntropy pt).allCells = g.allCells :=
    allCells_congr _ _ rfl rfl
  intro c hc hcs
  rw [hcells] at hc
  by_cases hpair : c.x.toNat = pt.x.toNat ∧ c.y.toNat = pt.y.toNat
  · have hcell1 : ((g.placePattern pt pat).cellAt pt).isSome := by
      show (getMat (setMat g.grid pt (some pat)) pt none).isSome = true
      rw [getMat_setMat_self _ _ _ _ hbx hby]
      rfl
    have h3 : ((g.placePattern pt pat).updateEntropy pt).entropyAt pt =
        (g.placePattern pt pat).entropyAt pt :=
      updateEntropy_entropyAt_some (g.placePattern pt pat) pt pt hcell1
    have h4 : (g.placePattern pt pat).entropyAt pt = 0 := by
      show getMat (setMat g.entropy pt 0) pt 0 = 0
      exact getMat_setMat_self _ _ _ _ hbex hbey
    calc ((g.placePattern pt pat).updateEntropy pt).entropyAt c
        = ((g.placePattern pt pat).updateEntropy pt).entropyAt pt :=
          getMat_congr _ c pt 0 hpair.1 hpair.2
      _ = 0 := by rw [h3, h4]
  · have hc2 : ((g.placePattern pt pat).updateEntropy pt).cellAt c = g.cellAt c := by
      show getMat (setMat g.grid pt (some pat)) c none = getMat g.grid c none
      exact getMat_setMat_ne _ _ _ _ _ hpair
    rw [hc2] at hcs
    have hcell1 : ((g.placePattern pt pat).cellAt c).isSome := by
      show (getMat (setMat g.grid pt (some pat)) c none).isSome = true
      rw [getMat_setMat_ne _ _ _ _ _ hpair]
      exact hcs
    have h3 : ((g.placePattern pt pat).updateEntropy pt).entropyAt c =
        (g.placePattern pt pat).entropyAt c :=
      updateEntropy_entropyAt_some (g.placePattern pt pat) pt c hcell1
    have h4 : (g.placePattern pt pat).entropyAt c = g.entropyAt c := by
      show getMat (setMat g.entropy pt 0) c 0 = getMat g.entropy c 0
      exact getMat_setMat_ne _ _ _ _ _ hpair
    rw [h3, h4]
    exact hInv c hc hcs

/-- Unfolding one step of the iterated orchestrator. -/
theorem stepIter_succ (J : Judge) (A : AdvisorFun) (k : Nat) (W : WFCState) :
    WFC.stepIter J A (k + 1) W = WFC.stepIter J A k (WFC.stepState J A W) := rfl

/-- `add_step` with a chosen point appends one snapshot, recording that
point, to both the full log and the rollback stack. -/
theorem addStep_snapshot (h : History) (r : StepResult) (g : Grid)
    (act : ActionType) (pp : Option (List MetaPattern)) (cp : Point)
    (hcp : r.chosenPoint = some cp) :
    ∃ snap : Snapshot, snap.actionPoint = cp ∧
      h.addStep r g act pp =
        ⟨h.snapshots ++ [snap], h.rollbackSnapshots ++ [snap]⟩ := by
  unfold History.addStep
  rw [hcp]
  exact ⟨_, rfl, rfl⟩

/-- A run of `k` successful PLACE steps writes `k` distinct, previously
empty cells, pushes `k` snapshots recording exactly those cells, keeps the
counters, and preserves shape and the collapsed-entropy invariant. -/
theorem placeRun_spec (J : Judge) (A : AdvisorFun) :
    ∀ (k : Nat) (W : WFCState),
      W.isInit = true → W.grid.WFShape → W.grid.CollapsedZero →
      (∀ i, i < k → isPlaceResult (WFC.step J A true (WFC.stepIter J A i W)).1) →
      ∃ L : List (Point × MetaPattern), ∃ S : List Snapshot,
        L.length = k ∧
        (∀ pp ∈ L, pp.1 ∈ W.grid.allCells) ∧
        (∀ pp ∈ L, W.grid.cellAt pp.1 = none) ∧
        (L.map Prod.fst).Nodup ∧
        S.map Snapshot.actionPoint = L.map Prod.fst ∧
        (WFC.stepIter J A k W).grid.grid =
          L.foldl (fun m pp => setMat m pp.1 (some pp.2)) W.grid.grid ∧
        (WFC.stepIter J A k W).grid.width = W.grid.width ∧
        (WFC.stepIter J A k W).grid.height = W.grid.height ∧
        (WFC.stepIter J A k W).rollbackCount = W.rollbackCount ∧
        (WFC.stepIter J A k W).maxRollbacks = W.maxRollbacks ∧
        (WFC.stepIter J A k W).isInit = true ∧
        (WFC.stepIter J A k W).grid.WFShape ∧
        (WFC.stepIter J A k W).grid.CollapsedZero ∧
        (WFC.stepIter J A k W).history.snapshots = W.history.snapshots ++ S ∧
        (WFC.stepIter J A k W).history.rollbackSnapshots =
          W.history.rollbackSnapshots ++ S := by
  intro k
  induction k with
  | zero =>
    intro W hInit hS hInv _
    refine ⟨[], [], rfl,
      (by intro pp hpp; exact absurd hpp (List.not_mem_nil pp)),
      (by intro pp hpp; exact absurd hpp (List.not_mem_nil pp)),
      List.nodup_nil, rfl, rfl, rfl, rfl, rfl, rfl, hInit, hS, hInv,
      (List.append_nil _).symm, (List.append_nil _).symm⟩
  | succ k ih =>
    intro W hInit hS hInv hplace
    have h0 : isPlaceResult (WFC.step J A true W).1 := hplace 0 (Nat.succ_pos k)
    obtain ⟨pt, pat, hF, hstep⟩ := step_place_branch J A W hInit h0
    obtain ⟨hptmem, hptpos⟩ := findLeast_mem_pos W.grid pt hF
    obtain ⟨hgl, hgr, hel, her⟩ := hS
    obtain ⟨hxb, hyb⟩ := allCells_bounds W.grid pt hptmem
    have hS' : W.grid.WFShape := ⟨hgl, hgr, hel, her⟩
    have hbx : pt.x.toNat < W.grid.grid.length := by rw [hgl]; exact hxb
    have hby : pt.y.toNat < (W.grid.grid.getD pt.x.toNat []).length := by
      rw [getD_row_length W.grid.grid _ W.grid.width hbx hgr]; exact hyb
    have hempty : W.grid.cellAt pt = none := by
      cases hcell : W.grid.cellAt pt with
      | none => rfl
      | some q =>
        have hz : W.grid.entropyAt pt = 0 := hInv pt hptmem (by rw [hcell]; rfl)
        omega
    have hW1 : WFC.stepState J A W =
        ⟨(W.grid.placePattern pt pat).updateEntropy pt, W.rollbackCount, W.maxRollbacks,
         W.history.addStep ⟨true, some pt, some pat, none, none⟩
           ((W.grid.placePattern pt pat).updateEntropy pt) ActionType.PLACE
           (some (sortByUid (W.grid.getValidPatterns pt 0 1))), W.isInit⟩ := by
      unfold WFC.stepState
      rw [hstep]
    obtain ⟨snap, hsnapPt, hsnapEq⟩ :=
      addStep_snapshot W.history ⟨true, some pt, some pat, none, none⟩
        ((W.grid.placePattern pt pat).updateEntropy pt) ActionType.PLACE
        (some (sortByUid (W.grid.getValidPatterns pt 0 1))) pt rfl
    have hW1grid : (WFC.stepState J A W).grid.grid = setMat W.grid.grid pt (some pat) := by
      rw [hW1]
      rfl
    have hW1w : (WFC.stepState J A W).grid.width = W.grid.width := by rw [hW1]; rfl
    have hW1h : (WFC.stepState J A W).grid.height = W.grid.height := by rw [hW1]; rfl
    have hW1count : (WFC.stepState J A W).rollbackCount = W.rollbackCount := by rw [hW1]
    have hW1max : (WFC.stepState J A W).maxRollbacks = W.maxRollbacks := by rw [hW1]
    have hW1init : (WFC.stepState J A W).isInit = true := by rw [hW1]; exact hInit
    have hW1snap : (WFC.stepState J A W).history.snapshots =
        W.history.snapshots ++ [snap] := by
      rw [hW1, hsnapEq]
    have hW1rsnap : (WFC.stepState J A W).history.rollbackSnapshots =
        W.history.rollbackSnapshots ++ [snap] := by
      rw [hW1, hsnapEq]
    have hW1cell : ∀ q : Point, (WFC.stepState J A W).grid.cellAt q =
        getMat (setMat W.grid.grid pt (some pat)) q none := by
      intro q
      show getMat (WFC.stepState J A W).grid.grid q none = _
      rw [hW1grid]
    have hShape1 : (WFC.stepState J A W).grid.WFShape := by
      rw [hW1]
      exact place_update_shape W.grid pt pat hS'
    have hInv1 : (WFC.stepState J A W).grid.CollapsedZero := by
      rw [hW1]
      exact place_update_inv W.grid pt pat hS' hInv hptmem
    have hAC : (WFC.stepState J A W).grid.allCells = W.grid.allCells := by
      rw [hW1]
      exact allCells_congr _ _ rfl rfl
    have hplace' : ∀ i, i < k →
        isPlaceResult (WFC.step J A true (WFC.stepIter J A i (WFC.stepState J A W))).1 := by
      intro i hi
      have hp := hplace (i + 1) (by omega)
      rw [stepIter_succ] at hp
      exact hp
    obtain ⟨L', S', ih1, ih2, ih3, ih4, ih5, ih6, ih7, ih8, ih9, ih10, ih11, ih12,
      ih13, ih14, ih15⟩ := ih (WFC.stepState J A W) hW1init hShape1 hInv1 hplace'
    refine ⟨(pt, pat) :: L', snap :: S', ?_, ?_, ?_, ?_, ?_, ?_, ?_, ?_, ?_, ?_, ?_,
      ?_, ?_, ?_, ?_⟩
    · rw [List.length_cons, ih1]
    · intro pp hpp
      rcases List.mem_cons.mp hpp with h | h
      · rw [h]; exact hptmem
      · have hmem := ih2 pp h
        rw [hAC] at hmem
        exact hmem
    · intro pp hpp
      rcases List.mem_cons.mp hpp with h | h
      · rw [h]; exact hempty
      · have h3 := ih3 pp h
        rw [hW1cell pp.1] at h3
        by_cases hpair : pp.1.x.toNat = pt.x.toNat ∧ pp.1.y.toNat = pt.y.toNat
        · exfalso
          rw [getMat_congr _ pp.1 pt none hpair.1 hpair.2,
            getMat_setMat_self _ _ _ _ hbx hby] at h3
          exact Option.noConfusion h3
        · rw [getMat_setMat_ne _ _ _ _ _ hpair] at h3
          exact h3
    · simp only [List.map_cons, List.nodup_cons]
      refine ⟨?_, ih4⟩
      intro hmem
      rw [List.mem_map] at hmem
      obtain ⟨qq, hqq, hqp⟩ := hmem
      have h3 := ih3 qq hqq
      rw [hW1cell qq.1, hqp] at h3
      rw [getMat_setMat_self _ _ _ _ hbx hby] at h3
      exact Option.noConfusion h3
    · simp only [List.map_cons]
      rw [ih5, hsnapPt]
    · rw [stepIter_succ, List.foldl_cons]
      have h6 := ih6
      rw [hW1grid] at h6
      exact h6
    · rw [stepIter_succ, ih7]
      exact hW1w
    · rw [stepIter_succ, ih8]
      exact hW1h
    · rw [stepIter_succ, ih9]
      exact hW1count
    · rw [stepIter_succ, ih10]
      exact hW1max
    · rw [stepIter_succ]
      exact ih11
    · rw [stepIter_succ]
      exact ih12
    · rw [stepIter_succ]
      exact ih13
    · rw [stepIter_succ, ih14, hW1snap, List.append_assoc, List.singleton_append]
    · rw [stepIter_succ, ih15, hW1rsnap, List.append_assoc, List.singleton_append]

/-- C2 (amended): after `k` successful PLACE steps followed by a step
whose judge decision is `ROLLBACK(k)`, the grid (pattern) array equals its
value immediately before those `k` placements.  (The entropy array is
*not* restored — see the accompanying counterexample: `reset_point`
recomputes entropies through `update_entropy` fixpoint pruning rather
than from a snapshot.) -/
theorem rollback_restores_grid (J : Judge) (A : AdvisorFun) (k : Nat) (W : WFCState)
    (hInit : W.isInit = true)
    (hS : W.grid.WFShape)
    (hInv : W.grid.CollapsedZero)
    (hplace : ∀ i, i < k → isPlaceResult (WFC.step J A true (WFC.stepIter J A i W)).1)
    (hLimit : rollbackLimitHit (WFC.stepIter J A k W).maxRollbacks
      (WFC.stepIter J A k W).rollbackCount = false)
    (hk : 0 < k)
    (hDec : J.decide (WFC.stepIter J A k W).grid = Decision.ROLLBACK (k : Int)) :
    (WFC.step J A true (WFC.stepIter J A k W)).2.grid.grid = W.grid.grid := by
  obtain ⟨L, S, h1, h2, h3, h4, h5, h6, h7, h8, h9, h10, h11, h12, h13, h14, h15⟩ :=
    placeRun_spec J A k W hInit hS hInv hplace
  have hSlen : S.length = k := by
    have hl := congrArg List.length h5
    rw [List.length_map, List.length_map] at hl
    rw [hl, h1]
  have hne : (WFC.stepIter J A k W).history.rollbackSnapshots ≠ [] := by
    rw [h15]
    intro hc
    have hl := congrArg List.length hc
    rw [List.length_append, hSlen] at hl
    simp only [List.length_nil] at hl
    omega
  rw [step_rollback_branch J A (WFC.stepIter J A k W) h11 hLimit hne (k : Int) hDec]
  show (WFC.rollback J (WFC.stepIter J A k W).grid (WFC.stepIter J A k W).history
      (WFC.stepIter J A k W).rollbackCount (k : Int)).1.grid = W.grid.grid
  unfold WFC.rollback
  dsimp only
  rw [rollbackLoop_spec]
  dsimp only
  rw [resetFold_grid]
  have htoNat : ((k : Nat) : Int).toNat = k := Int.toNat_natCast k
  rw [htoNat, h15, List.length_append, hSlen]
  have hmin : min k (W.history.rollbackSnapshots.length + k) = k :=
    Nat.min_eq_left (by omega)
  rw [hmin]
  have hsub : W.history.rollbackSnapshots.length + k - k =
      W.history.rollbackSnapshots.length := by omega
  rw [hsub, List.drop_left, List.map_reverse, h5, h6]
  exact places_resets L W.grid.grid
    (fun pp hpp => allCells_nonneg W.grid pp.1 (h2 pp hpp))
    h3 h4

/-- Witness for `rollback_restores_grid` on the concrete trace: one PLACE
step from `W2` (giving `W3`), then the `ROLLBACK(1)` step decided by
`JRoll`, restores `W2`'s pattern array. -/
theorem rollback_restores_grid_witness :
    W2.isInit = true ∧
    (WFC.step JRoll AHead true (WFC.stepIter JRoll AHead 1 W2)).2.grid.grid =
      W2.grid.grid :=
  ⟨by decide,
   rollback_restores_grid JRoll AHead 1 W2 (by decide) (by decide) (by decide)
     (by
       intro i hi
       have h0 : i = 0 := by omega
       subst h0
       decide)
     (by decide) (by decide) (by decide)⟩

/-- Concrete refutation of C2's entropy clause: from `W2`, one successful
PLACE step yields `W3`, the judge decides `ROLLBACK(1)`, and the rollback
step restores the pattern array to `W2`'s — but the entropy array differs
from `W2`'s: `reset_point` recomputes it by fixpoint pruning instead of
restoring the snapshot, leaving a stale entropy at the cell beyond the
reset one. -/
theorem rollback_entropy_claim_false :
    isPlaceResult (WFC.step JRoll AHead true W2).1 ∧
    (WFC.stepState JRoll AHead W2).grid.grid = W3.grid.grid ∧
    (WFC.stepState JRoll AHead W2).grid.entropy = W3.grid.entropy ∧
    JRoll.decide W3.grid = Decision.ROLLBACK 1 ∧
    (WFC.step JRoll AHead true W3).1.success = true ∧
    (WFC.step JRoll AHead true W3).2.grid.grid = W2.grid.grid ∧
    (WFC.step JRoll AHead true W3).2.grid.entropy ≠ W2.grid.entropy := by
  decide
